import Mathlib

/-!
# CImage: summed-area table and local adaptive thresholding

A shallow embedding of `src/CImage/images_manipulation.cpp`.

* `unsigned int` is a natural number below `2^32`, `unsigned long int` one below `2^64`;
  every arithmetic operation of the source on them is written with its explicit reduction.
* `vector<vector<unsigned int>>` is a list of rows.  Indexing a vector outside its bounds is
  undefined behaviour in the source; here such a read or write yields `none`.
* `for` loops are iterated bodies in the `Option` monad, so that a failing access aborts the run.
* `double` / `float` values are rationals.  For the half-width `d` this is exact (see
  `cround`); for the decision rule of `Thresholding` the floating-point operations are taken
  without rounding error.
* An output file is the text written to it, a `String`.
* `Thresholding` is given twice: as a function of the receiver's attributes, and as a call on
  a memory that holds the receiver and the local `copy` (`Thresholding_call`); the two agree
  (`Thresholding_call_eq`).
-/

namespace CImage

/-! ## Machine integers -/

/-- Number of values of `unsigned int`. -/
def U32 : Nat := 2 ^ 32

/-- Number of values of `unsigned long int` (LP64). -/
def U64 : Nat := 2 ^ 64

/-- Addition `a + b` of two `unsigned int`. -/
def uadd32 (a b : Nat) : Nat := (a + b) % U32

/-- Subtraction `a - b` of two `unsigned int` (wraps below zero). -/
def usub32 (a b : Nat) : Nat := (a + U32 - b) % U32

/-- Addition `a + b` of two `unsigned long int`. -/
def uadd64 (a b : Nat) : Nat := (a + b) % U64

/-- Subtraction `a - b` of two `unsigned long int` (wraps below zero). -/
def usub64 (a b : Nat) : Nat := (a + U64 - b) % U64

/-- Conversion of an `unsigned long int` to `unsigned int`, as done by a store into a table
cell. -/
def trunc32 (a : Nat) : Nat := a % U32

/-! ## Grids -/

/-- The type `vector<vector<unsigned int>>`. -/
abbrev Grid := List (List Nat)

/-- The read `m[i][j]`; `none` when a subscript is out of range. -/
def readCell (m : Grid) (i j : Nat) : Option Nat :=
  match m[i]? with
  | none => none
  | some row => row[j]?

/-- The store `m[i][j] = v`; `none` when a subscript is out of range. -/
def writeCell (m : Grid) (i j v : Nat) : Option Grid :=
  match m[i]? with
  | none => none
  | some row => if j < row.length then some (m.set i (row.set j v)) else none

/-- The loop body run for `i = lo, lo+1, ..., lo+n-1`, stopping at the first failure. -/
def iterate {σ : Type} (body : Nat → σ → Option σ) : Nat → Nat → σ → Option σ
  | _, 0, s => some s
  | lo, n + 1, s => (body lo s).bind (iterate body (lo + 1) n)

/-- The loop `for (unsigned int i = lo; i < hi; i++) body`. -/
def forLoop {σ : Type} (body : Nat → σ → Option σ) (lo hi : Nat) (s : σ) : Option σ :=
  iterate body lo (hi - lo) s

/-- The class `cImage` (its attributes). -/
structure cImage where
  x_pixels : Nat
  y_pixels : Nat
  image_name : String
  image : Grid
deriving DecidableEq

/-- What the constructor `cImage(string filename)` establishes: `image` has `y_pixels` rows of
`x_pixels` entries each, and every attribute and entry is an `unsigned int`. -/
structure WellFormed (img : cImage) : Prop where
  rows : img.image.length = img.y_pixels
  cols : ∀ row ∈ img.image, row.length = img.x_pixels
  vals : ∀ row ∈ img.image, ∀ v ∈ row, v < U32
  xlt : img.x_pixels < U32
  ylt : img.y_pixels < U32

/-! ## `SummedAreaTable` -/

/-- The body of the inner loop of `SummedAreaTable` at `(i, j)`: the four `if` statements in
the order of the source.  The right-hand sides are computed in `unsigned long int` (the type of
`value`) and converted to `unsigned int` by the store. -/
def satStep (image : Grid) (i j : Nat) (sat : Grid) : Option Grid := do
  let value ← readCell image i j
  let sat ← if i = 0 ∧ j = 0 then writeCell sat i j (trunc32 value) else some sat
  let sat ← if i = 0 ∧ j > 0 then do
      let a ← readCell sat i (usub32 j 1)
      writeCell sat i j (trunc32 (uadd64 value a))
    else some sat
  let sat ← if j = 0 ∧ i > 0 then do
      let a ← readCell sat (usub32 i 1) j
      writeCell sat i j (trunc32 (uadd64 value a))
    else some sat
  if i > 0 ∧ j > 0 then do
      let a ← readCell sat i (usub32 j 1)
      let b ← readCell sat (usub32 i 1) j
      let c ← readCell sat (usub32 i 1) (usub32 j 1)
      writeCell sat i j (trunc32 (usub64 (uadd64 (uadd64 value a) b) c))
    else some sat

/-- The method `cImage::SummedAreaTable`. -/
def SummedAreaTable (self : cImage) : Option Grid :=
  forLoop (fun i sat => forLoop (fun j sat => satStep self.image i j sat) 0 self.x_pixels sat)
    0 self.y_pixels (List.replicate self.y_pixels (List.replicate self.x_pixels 0))

/-! ## Half-widths -/

/-- The C function `round` on an exactly known value: nearest integer, halves away from zero.
The arguments it receives here are `n + 0.1` and `n + 0.6` for an integer `0 ≤ n < 2^32`, which
in `double` are off by less than `2^-20`, so the rounded result is that of the exact value. -/
def cround (q : ℚ) : ℤ := if 0 ≤ q then ⌊q + 1 / 2⌋ else ⌈q - 1 / 2⌉

/-- The local `d` of `LocalIntensity`: `round(window/2 + 0.1)`, with `window/2` a division of
`unsigned int`. -/
def LocalIntensity_d (window : Nat) : Nat := (cround (((window / 2 : Nat) : ℚ) + 1 / 10)).toNat

/-- The local `d` of `Thresholding`: `round(window/2. + 0.1)`, with `window/2.` a division of
`double`. -/
def Thresholding_d (window : Nat) : Nat := (cround ((window : ℚ) / 2 + 1 / 10)).toNat

/-! ## `LocalIntensity` -/

/-- The method `cImage::LocalIntensity`: subscripts and result in `unsigned int` arithmetic. -/
def LocalIntensity (tabsum : Grid) (x y window : Nat) : Option Nat := do
  let d := LocalIntensity_d window
  let a ← readCell tabsum (usub32 (uadd32 x d) 1) (usub32 (uadd32 y d) 1)
  let b ← readCell tabsum (usub32 x d) (usub32 y d)
  let c ← readCell tabsum (usub32 x d) (usub32 (uadd32 y d) 1)
  let e ← readCell tabsum (usub32 (uadd32 x d) 1) (usub32 y d)
  some (usub32 (usub32 (uadd32 a b) c) e)

/-! ## `Thresholding` -/

/-- The denominator `1-copy.image[i][j] + m`: the difference `1 - pixel` is taken between an
`int` and an `unsigned int`, hence in `unsigned int`, before `m` is added. -/
def ruleDen (pixel : Nat) (m : ℚ) : ℚ := ((usub32 1 pixel : Nat) : ℚ) + m

/-- The condition of the `if` in the interior loop,
`pixel >= m * (1 + k*((pixel-m)/(1-pixel + m) - 1))`.
A zero denominator only occurs with `pixel = 1` and `m = 0`; IEEE arithmetic then gives
`1/0 = inf`, `m * (..) = 0 * inf = NaN`, and the comparison with `NaN` is false. -/
def rule (pixel : Nat) (m k : ℚ) : Bool :=
  if ruleDen pixel m = 0 then false
  else decide ((pixel : ℚ) ≥ m * (1 + k * (((pixel : ℚ) - m) / ruleDen pixel m - 1)))

/-- The local mean `m = LocalIntensity(..)/(1.0*window*window)`. -/
def localMean (s window : Nat) : ℚ := (s : ℚ) / (1 * (window : ℚ) * (window : ℚ))

/-- The body of the interior loop of `Thresholding` at `(i, j)`. -/
def interiorStep (tabsum : Grid) (window : Nat) (k : ℚ) (i j : Nat) (img : Grid) :
    Option Grid := do
  let s ← LocalIntensity tabsum i j window
  let m := localMean s window
  let p ← readCell img i j
  if rule p m k then writeCell img i j 255 else writeCell img i j 0

/-- The loop nest `for i in [r0, r1) for j in [c0, c1) copy.image[i][j] = 0`. -/
def zeroRect (r0 r1 c0 c1 : Nat) (img : Grid) : Option Grid :=
  forLoop (fun i img => forLoop (fun j img => writeCell img i j 0) c0 c1 img) r0 r1 img

/-- The method `cImage::Thresholding`.  The constructor call `cImage copy(image_name)`, which
reads the file again, is the parameter `load`. -/
def Thresholding (load : String → cImage) (self : cImage) (window : Nat) (k : ℚ) :
    Option cImage := do
  let copy := load self.image_name
  let tabsum ← SummedAreaTable copy
  let d := Thresholding_d window
  let img ← zeroRect 0 d 0 self.x_pixels copy.image
  let img ← zeroRect (usub32 self.y_pixels d) self.y_pixels 0 self.x_pixels img
  let img ← zeroRect d (usub32 self.y_pixels d) 0 d img
  let img ← zeroRect d (usub32 self.y_pixels d) (usub32 self.x_pixels d) self.x_pixels img
  let img ← forLoop (fun i img =>
      forLoop (fun j img => interiorStep tabsum window k i j img) d (usub32 self.x_pixels d) img)
    d (usub32 self.y_pixels d) img
  some { copy with image := img }

/-! ## Brute-force sums -/

/-- The entry at `(i, j)`, `0` outside the grid. -/
def cell (g : Grid) (i j : Nat) : Nat := (g.getD i []).getD j 0

/-- The sum `f lo + f (lo+1) + ... + f (lo+n-1)`. -/
def sumRange (f : Nat → Nat) (lo : Nat) : Nat → Nat
  | 0 => 0
  | n + 1 => sumRange f lo n + f (lo + n)

/-- The sum of the entries in rows `r0 .. r0+nr-1` and columns `c0 .. c0+nc-1`. -/
def rectSum (g : Grid) (r0 nr c0 nc : Nat) : Nat :=
  sumRange (fun r => sumRange (fun c => cell g r c) c0 nc) r0 nr

/-- The sum of the entries with row `≤ i` and column `≤ j`. -/
def psum (g : Grid) (i j : Nat) : Nat := rectSum g 0 (i + 1) 0 (j + 1)

/-! ## Auxiliary predicates -/

/-- The grid has `H` rows of `W` entries each. -/
def Shape (H W : Nat) (g : Grid) : Prop := g.length = H ∧ ∀ row ∈ g, row.length = W

/-- The grid after the store `g[i][j] = v` (when in range). -/
def setCell (g : Grid) (i j v : Nat) : Grid := g.set i ((g.getD i []).set j v)

/-- The cell `(i, j)` lies in the interior left by a frame of thickness `d`. -/
def Interior (H W d i j : Nat) : Prop := d ≤ i ∧ i + d < H ∧ d ≤ j ∧ j + d < W

instance (H W d i j : Nat) : Decidable (Interior H W d i j) :=
  inferInstanceAs (Decidable (d ≤ i ∧ i + d < H ∧ d ≤ j ∧ j + d < W))

/-- The decision rule as the specification words it: the whole right-hand side, the
denominator `1 - pixel + m` included, over signed (rational) arithmetic. -/
def specRule (pixel : Nat) (m k : ℚ) : Prop :=
  (pixel : ℚ) ≥ m * (1 + k * (((pixel : ℚ) - m) / (1 - (pixel : ℚ) + m) - 1))

/-! ## Concrete images -/

/-- The grid of `h` rows and `w` columns filled with `v`. -/
def constGrid (h w v : Nat) : Grid := List.replicate h (List.replicate w v)

/-- The image of the concrete scenario: 9×9, every intensity 100. -/
def flat9 : cImage := ⟨9, 9, "smile.txt", constGrid 9 9 100⟩

/-- A 3×3 image, every intensity 100. -/
def flat3 : cImage := ⟨3, 3, "smile.txt", constGrid 3 3 100⟩

/-- A 3×3 image, every intensity 1. -/
def ones3 : cImage := ⟨3, 3, "smile.txt", constGrid 3 3 1⟩

/-- A 2×2 image, every intensity 1. -/
def ones2 : cImage := ⟨2, 2, "smile.txt", constGrid 2 2 1⟩

/-- A 1×2 image whose two intensities add up to `2^32`. -/
def wrapRow : cImage := ⟨2, 1, "smile.txt", [[4294967295, 1]]⟩

/-- A 5×5 image, every intensity 96 except a dark centre pixel 35. -/
def dip5 : cImage :=
  ⟨5, 5, "smile.txt",
    [[96, 96, 96, 96, 96], [96, 96, 96, 96, 96], [96, 96, 35, 96, 96], [96, 96, 96, 96, 96],
      [96, 96, 96, 96, 96]]⟩

/-- The brute-force sum of the cells that the query `LocalIntensity(tabsum, x, y, window)`
covers: with `d = window/2`, the square of rows `x-d+1 .. x+d-1` and columns `y-d+1 .. y+d-1`
when `d ≥ 1`, the single cell `(x, y)` when `d = 0`. -/
def windowSum (g : Grid) (x y window : Nat) : Nat :=
  if window / 2 = 0 then cell g x y
  else rectSum g (x - window / 2 + 1) (2 * (window / 2) - 1)
    (y - window / 2 + 1) (2 * (window / 2) - 1)

/-- A 3×3 image with one intensity `2^32 - 1` in the corner: its table entries wrap. -/
def wrap3 : cImage := ⟨3, 3, "smile.txt", [[4294967295, 1, 1], [1, 1, 1], [1, 1, 1]]⟩

/-- A 5×5 image, every intensity 0. -/
def zeros5 : cImage := ⟨5, 5, "smile.txt", constGrid 5 5 0⟩

/-! ## `SaveImage` and `SaveMatrix` -/

/-- The method `cImage::SaveImage`: the text it writes to the file (`none` when a subscript
is out of range).  An insertion `file << image[i][j] << " "` appends the decimal digits of the
intensity and one space, `file << endl` a newline. -/
def SaveImage (self : cImage) : Option String :=
  forLoop (fun i out => do
      let out ← forLoop (fun j out => do
          let v ← readCell self.image i j
          some (out ++ toString v ++ " ")) 0 self.x_pixels out
      if i < usub32 self.y_pixels 1 then some (out ++ "\n") else some out)
    0 self.y_pixels ""

/-- The function `SaveMatrix`: as `SaveImage`, with the bounds `matrix.size()` and
`matrix[0].size()`; the difference `matrix.size()-1` is taken in `size_t`. -/
def SaveMatrix (matrix : Grid) : Option String :=
  forLoop (fun i out => do
      let row0 ← matrix[0]?
      let out ← forLoop (fun j out => do
          let v ← readCell matrix i j
          some (out ++ toString v ++ " ")) 0 row0.length out
      if i < usub64 matrix.length 1 then some (out ++ "\n") else some out)
    0 matrix.length ""

/-- The text of one row as the code writes it: every intensity in decimal, each followed by
one space. -/
def rowText (row : List Nat) : String := String.join (row.map (fun v => toString v ++ " "))

/-- The text of a grid as the code writes it: the rows in order, consecutive rows separated by
one newline. -/
def gridText (g : Grid) : String := String.intercalate "\n" (g.map rowText)

/-- The text of one row as the specification words it: the intensities in decimal separated
by single spaces. -/
def specRowText (row : List Nat) : String := String.intercalate " " (row.map toString)

/-- The text of a grid as the specification words it: the rows in order, consecutive rows
separated by one newline, no newline after the last row. -/
def specGridText (g : Grid) : String := String.intercalate "\n" (g.map specRowText)

/-- A 2×2 image with the intensities 1, 2, 3, 4. -/
def digits2 : cImage := ⟨2, 2, "smile.txt", [[1, 2], [3, 4]]⟩

/-! ## `Thresholding` as a call on the receiver -/

/-- The two objects a call `self.Thresholding(window, k)` works on: the receiver and the local
`copy`. -/
structure ThresholdingMem where
  self : cImage
  copy : cImage

/-- The store `copy.image[i][j] = v`. -/
def storeCopy (i j v : Nat) (s : ThresholdingMem) : Option ThresholdingMem :=
  (writeCell s.copy.image i j v).map (fun g => { s with copy := { s.copy with image := g } })

/-- The loop nest `for i in [r0, r1) for j in [c0, c1) copy.image[i][j] = 0`. -/
def zeroRectMem (r0 r1 c0 c1 : Nat) (s : ThresholdingMem) : Option ThresholdingMem :=
  forLoop (fun i s => forLoop (fun j s => storeCopy i j 0 s) c0 c1 s) r0 r1 s

/-- The body of the interior loop at `(i, j)`. -/
def interiorStepMem (tabsum : Grid) (window : Nat) (k : ℚ) (i j : Nat) (s : ThresholdingMem) :
    Option ThresholdingMem := do
  let sum ← LocalIntensity tabsum i j window
  let m := localMean sum window
  let p ← readCell s.copy.image i j
  if rule p m k then storeCopy i j 255 s else storeCopy i j 0 s

/-- The call `self.Thresholding(window, k)` with the receiver passed through: the loop bounds
`x_pixels` and `y_pixels` are read from the receiver, every store goes to `copy`; the result is
the receiver after the call and the returned image. -/
def Thresholding_call (load : String → cImage) (self : cImage) (window : Nat) (k : ℚ) :
    Option (cImage × cImage) := do
  let s : ThresholdingMem := ⟨self, load self.image_name⟩
  let tabsum ← SummedAreaTable s.copy
  let d := Thresholding_d window
  let s ← zeroRectMem 0 d 0 s.self.x_pixels s
  let s ← zeroRectMem (usub32 s.self.y_pixels d) s.self.y_pixels 0 s.self.x_pixels s
  let s ← zeroRectMem d (usub32 s.self.y_pixels d) 0 d s
  let s ← zeroRectMem d (usub32 s.self.y_pixels d) (usub32 s.self.x_pixels d) s.self.x_pixels s
  let s ← forLoop (fun i s =>
      forLoop (fun j s => interiorStepMem tabsum window k i j s) d (usub32 s.self.x_pixels d) s)
    d (usub32 s.self.y_pixels d) s
  some (s.self, s.copy)

/-- The memory `s` with the grid of `copy` replaced by `g`. -/
def withCopyImage (s : ThresholdingMem) (g : Grid) : ThresholdingMem :=
  { s with copy := { s.copy with image := g } }

/-! ## Machine arithmetic and grid access -/


theorem usub32_of_le (a b : Nat) (hb : b ≤ a) (ha : a < U32) : usub32 a b = a - b := by
  unfold usub32
  have : a + U32 - b = (a - b) + U32 := by omega
  rw [this, Nat.add_mod_right, Nat.mod_eq_of_lt (by omega)]

theorem uadd32_of_lt (a b : Nat) (h : a + b < U32) : uadd32 a b = a + b := by
  unfold uadd32
  exact Nat.mod_eq_of_lt h

theorem Shape.row_length {H W : Nat} {g : Grid} (hs : Shape H W g) {i : Nat} (hi : i < H) :
    (g.getD i []).length = W := by
  have hlen : i < g.length := by rw [hs.1]; exact hi
  rw [List.getD_eq_getElem _ _ hlen]
  exact hs.2 _ (List.getElem_mem _)

theorem readCell_of_shape {H W : Nat} {g : Grid} (hs : Shape H W g) {i j : Nat}
    (hi : i < H) (hj : j < W) : readCell g i j = some (cell g i j) := by
  have hlen : i < g.length := by rw [hs.1]; exact hi
  have hrow := hs.row_length hi
  unfold readCell cell
  rw [List.getD_eq_getElem _ _ hlen] at hrow ⊢
  rw [List.getElem?_eq_getElem hlen]
  simp only
  rw [List.getElem?_eq_getElem (by omega), List.getD_eq_getElem _ _ (by omega)]

theorem readCell_none_of_row {H W : Nat} {g : Grid} (hs : Shape H W g) {i j : Nat}
    (hi : H ≤ i) : readCell g i j = none := by
  unfold readCell
  rw [List.getElem?_eq_none (by rw [hs.1]; exact hi)]

theorem readCell_none_of_col {H W : Nat} {g : Grid} (hs : Shape H W g) {i j : Nat}
    (hj : W ≤ j) : readCell g i j = none := by
  unfold readCell
  cases h : g[i]? with
  | none => rfl
  | some row =>
    have hmem : row ∈ g := List.getElem?_mem h
    simp only
    exact List.getElem?_eq_none (by rw [hs.2 row hmem]; exact hj)

theorem writeCell_of_shape {H W : Nat} {g : Grid} (hs : Shape H W g) {i j : Nat} (v : Nat)
    (hi : i < H) (hj : j < W) : writeCell g i j v = some (setCell g i j v) := by
  have hlen : i < g.length := by rw [hs.1]; exact hi
  have hrow := hs.row_length hi
  unfold writeCell setCell
  rw [List.getD_eq_getElem _ _ hlen] at hrow ⊢
  rw [List.getElem?_eq_getElem hlen]
  simp only
  rw [if_pos (by omega)]

theorem writeCell_none_of_row {H W : Nat} {g : Grid} (hs : Shape H W g) {i j : Nat} (v : Nat)
    (hi : H ≤ i) : writeCell g i j v = none := by
  unfold writeCell
  rw [List.getElem?_eq_none (by rw [hs.1]; exact hi)]

theorem writeCell_none_of_col {H W : Nat} {g : Grid} (hs : Shape H W g) {i j : Nat} (v : Nat)
    (hj : W ≤ j) : writeCell g i j v = none := by
  unfold writeCell
  cases h : g[i]? with
  | none => rfl
  | some row =>
    have hmem : row ∈ g := List.getElem?_mem h
    simp only
    rw [if_neg (by rw [hs.2 row hmem]; omega)]

theorem shape_setCell {H W : Nat} {g : Grid} (hs : Shape H W g) (i j v : Nat) :
    Shape H W (setCell g i j v) := by
  unfold setCell
  refine ⟨by rw [List.length_set]; exact hs.1, ?_⟩
  intro row hrow
  rcases List.mem_or_eq_of_mem_set hrow with h | h
  · exact hs.2 row h
  · by_cases hi : i < g.length
    · rw [h, List.length_set, List.getD_eq_getElem _ _ hi]
      exact hs.2 _ (List.getElem_mem _)
    · rw [List.set_eq_of_length_le (by omega)] at hrow
      exact hs.2 row hrow

theorem cell_setCell {H W : Nat} {g : Grid} (hs : Shape H W g) {i j : Nat} (v : Nat)
    (hi : i < H) (hj : j < W) (r c : Nat) :
    cell (setCell g i j v) r c = if r = i ∧ c = j then v else cell g r c := by
  have hlen : i < g.length := by rw [hs.1]; exact hi
  have hrow := hs.row_length hi
  unfold cell setCell
  simp only [List.getD_eq_getElem?_getD] at hrow ⊢
  rw [List.getElem?_set]
  by_cases hr : i = r
  · subst hr
    rw [if_pos rfl, if_pos hlen]
    simp only [Option.getD_some, true_and]
    rw [List.getElem?_set]
    by_cases hc : j = c
    · subst hc
      rw [if_pos rfl, if_pos (by omega), if_pos rfl]
      rfl
    · rw [if_neg hc, if_neg (fun h => hc h.symm)]
  · rw [if_neg hr, if_neg (fun h => hr h.1.symm)]

theorem writeCell_some_shape {H W : Nat} {g t : Grid} (hs : Shape H W g) {i j v : Nat}
    (h : writeCell g i j v = some t) : Shape H W t := by
  by_cases hi : i < H
  · by_cases hj : j < W
    · rw [writeCell_of_shape hs v hi hj] at h
      cases h
      exact shape_setCell hs i j v
    · rw [writeCell_none_of_col hs v (by omega)] at h
      cases h
  · rw [writeCell_none_of_row hs v (by omega)] at h
    cases h

/-! ## Loops -/

theorem iterate_inv {σ : Type} (P : Nat → σ → Prop) (body : Nat → σ → Option σ) :
    ∀ (n lo : Nat) (s : σ), P lo s →
    (∀ i s, lo ≤ i → i < lo + n → P i s → ∃ t, body i s = some t ∧ P (i + 1) t) →
    ∃ t, iterate body lo n s = some t ∧ P (lo + n) t := by
  intro n
  induction n with
  | zero => intro lo s h0 _; exact ⟨s, rfl, h0⟩
  | succ n ih =>
    intro lo s h0 hstep
    obtain ⟨t, ht, hPt⟩ := hstep lo s (le_refl _) (by omega) h0
    obtain ⟨u, hu, hPu⟩ := ih (lo + 1) t hPt
      (fun i s hi1 hi2 hP => hstep i s (by omega) (by omega) hP)
    refine ⟨u, ?_, ?_⟩
    · simp only [iterate, ht, Option.bind_some]; exact hu
    · have : lo + (n + 1) = lo + 1 + n := by omega
      rw [this]; exact hPu

theorem forLoop_inv {σ : Type} (P : Nat → σ → Prop) (body : Nat → σ → Option σ)
    (lo hi : Nat) (s : σ) (hle : lo ≤ hi) (h0 : P lo s)
    (hstep : ∀ i s, lo ≤ i → i < hi → P i s → ∃ t, body i s = some t ∧ P (i + 1) t) :
    ∃ t, forLoop body lo hi s = some t ∧ P hi t := by
  obtain ⟨t, ht, hP⟩ := iterate_inv P body (hi - lo) lo s h0
    (fun i s h1 h2 hP => hstep i s h1 (by omega) hP)
  refine ⟨t, ht, ?_⟩
  have : lo + (hi - lo) = hi := by omega
  rw [this] at hP; exact hP

theorem forLoop_empty {σ : Type} (body : Nat → σ → Option σ) (lo hi : Nat) (s : σ)
    (h : hi ≤ lo) : forLoop body lo hi s = some s := by
  unfold forLoop
  rw [Nat.sub_eq_zero_of_le h]
  rfl

theorem iterate_preserves {σ : Type} (P : σ → Prop) (body : Nat → σ → Option σ)
    (hpres : ∀ i s t, P s → body i s = some t → P t) :
    ∀ (n lo : Nat) (s t : σ), P s → iterate body lo n s = some t → P t := by
  intro n
  induction n with
  | zero => intro lo s t hP h; simp only [iterate] at h; cases h; exact hP
  | succ n ih =>
    intro lo s t hP h
    simp only [iterate] at h
    cases hb : body lo s with
    | none => rw [hb] at h; cases h
    | some u =>
      rw [hb] at h
      exact ih (lo + 1) u t (hpres lo s u hP hb) h

theorem iterate_none {σ : Type} (P : σ → Prop) (body : Nat → σ → Option σ)
    (hpres : ∀ i s t, P s → body i s = some t → P t) (i : Nat)
    (hfail : ∀ s, P s → body i s = none) :
    ∀ (n lo : Nat) (s : σ), P s → lo ≤ i → i < lo + n → iterate body lo n s = none := by
  intro n
  induction n with
  | zero => intro lo s _ h1 h2; omega
  | succ n ih =>
    intro lo s hP h1 h2
    simp only [iterate]
    cases hb : body lo s with
    | none => rfl
    | some u =>
      have hne : lo ≠ i := by
        intro e; subst e; rw [hfail s hP] at hb; cases hb
      exact ih (lo + 1) u (hpres lo s u hP hb) (by omega) (by omega)


theorem rowLoop_total (body : Nat → Grid → Option Grid) (val : Nat → Nat) (old : Nat → Nat)
    (H W i c0 c1 : Nat) (g : Grid) (hs : Shape H W g) (hi : i < H) (hc : c1 ≤ W)
    (hold : ∀ c, c0 ≤ c → c < c1 → cell g i c = old c)
    (hbody : ∀ j t, c0 ≤ j → j < c1 → Shape H W t → cell t i j = old j →
      body j t = some (setCell t i j (val j))) :
    ∃ t, forLoop body c0 c1 g = some t ∧ Shape H W t ∧
      ∀ r c, cell t r c = if r = i ∧ c0 ≤ c ∧ c < c1 then val c else cell g r c := by
  by_cases hle : c0 ≤ c1
  · obtain ⟨t, ht, hst, hct⟩ := forLoop_inv
      (fun j t => Shape H W t ∧
        ∀ r c, cell t r c = if r = i ∧ c0 ≤ c ∧ c < j then val c else cell g r c)
      body c0 c1 g hle
      ⟨hs, fun r c => by rw [if_neg (by omega)]⟩
      (fun j t h1 h2 hP => by
        obtain ⟨hst, hct⟩ := hP
        have hcur : cell t i j = old j := by
          rw [hct i j, if_neg (by omega)]; exact hold j h1 h2
        refine ⟨_, hbody j t h1 h2 hst hcur, shape_setCell hst i j _, ?_⟩
        intro r c
        rw [cell_setCell hst _ hi (by omega), hct r c]
        by_cases e1 : r = i ∧ c = j
        · rw [if_pos e1, if_pos (by omega), e1.2]
        · rw [if_neg e1]
          by_cases e2 : r = i ∧ c0 ≤ c ∧ c < j
          · rw [if_pos e2, if_pos (by omega)]
          · rw [if_neg e2, if_neg (by omega)])
    exact ⟨t, ht, hst, hct⟩
  · refine ⟨g, forLoop_empty body c0 c1 g (by omega), hs, ?_⟩
    intro r c
    rw [if_neg (by omega)]

theorem rectLoop_total (body : Nat → Nat → Grid → Option Grid) (val : Nat → Nat → Nat)
    (H W r0 r1 c0 c1 : Nat) (g : Grid) (hs : Shape H W g) (hr : r1 ≤ H) (hc : c1 ≤ W)
    (hbody : ∀ i j t, r0 ≤ i → i < r1 → c0 ≤ j → j < c1 → Shape H W t →
      cell t i j = cell g i j → body i j t = some (setCell t i j (val i j))) :
    ∃ t, forLoop (fun i t => forLoop (fun j t => body i j t) c0 c1 t) r0 r1 g = some t ∧
      Shape H W t ∧
      ∀ r c, cell t r c =
        if r0 ≤ r ∧ r < r1 ∧ c0 ≤ c ∧ c < c1 then val r c else cell g r c := by
  by_cases hle : r0 ≤ r1
  · obtain ⟨t, ht, hst, hct⟩ := forLoop_inv
      (fun i t => Shape H W t ∧
        ∀ r c, cell t r c =
          if r0 ≤ r ∧ r < i ∧ c0 ≤ c ∧ c < c1 then val r c else cell g r c)
      (fun i t => forLoop (fun j t => body i j t) c0 c1 t) r0 r1 g hle
      ⟨hs, fun r c => by rw [if_neg (by omega)]⟩
      (fun i t h1 h2 hP => by
        obtain ⟨hst, hct⟩ := hP
        obtain ⟨u, hu, hsu, hcu⟩ := rowLoop_total (fun j t => body i j t) (val i)
          (fun c => cell g i c) H W i c0 c1 t hst (by omega) hc
          (fun c _ _ => by rw [hct i c, if_neg (by omega)])
          (fun j u hj1 hj2 hsu hcur => hbody i j u h1 h2 hj1 hj2 hsu hcur)
        refine ⟨u, hu, hsu, ?_⟩
        intro r c
        rw [hcu r c, hct r c]
        by_cases e1 : r = i ∧ c0 ≤ c ∧ c < c1
        · rw [if_pos e1, if_pos (by omega), e1.1]
        · rw [if_neg e1]
          by_cases e2 : r0 ≤ r ∧ r < i ∧ c0 ≤ c ∧ c < c1
          · rw [if_pos e2, if_pos (by omega)]
          · rw [if_neg e2, if_neg (by omega)])
    exact ⟨t, ht, hst, hct⟩
  · refine ⟨g, forLoop_empty _ r0 r1 g (by omega), hs, ?_⟩
    intro r c
    rw [if_neg (by omega)]

theorem zeroRect_total (H W r0 r1 c0 c1 : Nat) (g : Grid) (hs : Shape H W g)
    (hr : r1 ≤ H) (hc : c1 ≤ W) :
    ∃ t, zeroRect r0 r1 c0 c1 g = some t ∧ Shape H W t ∧
      ∀ r c, cell t r c = if r0 ≤ r ∧ r < r1 ∧ c0 ≤ c ∧ c < c1 then 0 else cell g r c :=
  rectLoop_total (fun i j t => writeCell t i j 0) (fun _ _ => 0) H W r0 r1 c0 c1 g hs hr hc
    (fun i j t _ h2 _ h4 hst _ => writeCell_of_shape hst 0 (by omega) (by omega))

theorem zeroRect_preserves (H W r0 r1 c0 c1 : Nat) (g t : Grid) (hs : Shape H W g)
    (h : zeroRect r0 r1 c0 c1 g = some t) : Shape H W t := by
  refine iterate_preserves (Shape H W) _ ?_ (r1 - r0) r0 g t hs h
  intro i s u hsS hu
  refine iterate_preserves (Shape H W) _ ?_ (c1 - c0) c0 s u hsS hu
  intro j s u hsS hu
  exact writeCell_some_shape hsS hu

theorem zeroRect_none (H W r0 r1 c0 c1 : Nat) (g : Grid) (hs : Shape H W g)
    (hr : r0 < r1) (hc : c0 < c1) (hout : H < r1 ∨ W < c1) :
    zeroRect r0 r1 c0 c1 g = none := by
  have hinner : ∀ i, ∀ s t : Grid, Shape H W s →
      forLoop (fun j t => writeCell t i j 0) c0 c1 s = some t → Shape H W t := by
    intro i s t hsS hu
    refine iterate_preserves (Shape H W) _ ?_ (c1 - c0) c0 s t hsS hu
    intro j s u hsS hu
    exact writeCell_some_shape hsS hu
  by_cases hH : H < r1
  · refine iterate_none (Shape H W) _ hinner (max r0 H) ?_ (r1 - r0) r0 g hs
      (le_max_left _ _) (by omega)
    intro s hsS
    refine iterate_none (Shape H W) _ (fun j s u hsS hu => writeCell_some_shape hsS hu) c0
      ?_ (c1 - c0) c0 s hsS (le_refl _) (by omega)
    intro s hsS
    exact writeCell_none_of_row hsS 0 (le_max_right _ _)
  · have hW : W < c1 := by omega
    refine iterate_none (Shape H W) _ hinner r0 ?_ (r1 - r0) r0 g hs (le_refl _) (by omega)
    intro s hsS
    refine iterate_none (Shape H W) _ (fun j s u hsS hu => writeCell_some_shape hsS hu)
      (max c0 W) ?_ (c1 - c0) c0 s hsS (le_max_left _ _) (by omega)
    intro s hsS
    exact writeCell_none_of_col hsS 0 (le_max_right _ _)


/-! ## Sums -/

theorem sumRange_add (f : Nat → Nat) (lo a : Nat) :
    ∀ b, sumRange f lo (a + b) = sumRange f lo a + sumRange f (lo + a) b := by
  intro b
  induction b with
  | zero => rfl
  | succ b ih =>
    have : a + (b + 1) = (a + b) + 1 := by omega
    rw [this]
    simp only [sumRange]
    rw [ih]
    have : lo + (a + b) = lo + a + b := by omega
    rw [this]
    omega

theorem sumRange_congr (f h : Nat → Nat) (lo : Nat) :
    ∀ n, (∀ k, lo ≤ k → k < lo + n → f k = h k) → sumRange f lo n = sumRange h lo n := by
  intro n
  induction n with
  | zero => intro _; rfl
  | succ n ih =>
    intro hfh
    simp only [sumRange]
    rw [ih (fun k h1 h2 => hfh k h1 (by omega)), hfh (lo + n) (by omega) (by omega)]

theorem sumRange_add_fun (f h : Nat → Nat) (lo : Nat) :
    ∀ n, sumRange (fun k => f k + h k) lo n = sumRange f lo n + sumRange h lo n := by
  intro n
  induction n with
  | zero => rfl
  | succ n ih => simp only [sumRange]; rw [ih]; omega

theorem rectSum_rows (g : Grid) (r0 a b c0 nc : Nat) :
    rectSum g r0 (a + b) c0 nc = rectSum g r0 a c0 nc + rectSum g (r0 + a) b c0 nc := by
  unfold rectSum
  exact sumRange_add _ r0 a b

theorem rectSum_cols (g : Grid) (r0 nr c0 a b : Nat) :
    rectSum g r0 nr c0 (a + b) = rectSum g r0 nr c0 a + rectSum g r0 nr (c0 + a) b := by
  unfold rectSum
  rw [← sumRange_add_fun]
  exact sumRange_congr _ _ r0 nr (fun r _ _ => sumRange_add _ c0 a b)

theorem rectSum_one_one (g : Grid) (r c : Nat) : rectSum g r 1 c 1 = cell g r c := by
  simp [rectSum, sumRange]

/-- Inclusion–exclusion on inclusive prefix sums: the four corners around the block of rows
`r0+1 .. r0+n` and columns `c0+1 .. c0+m`. -/
theorem psum_four_corner (g : Grid) (r0 c0 n m : Nat) :
    psum g (r0 + n) (c0 + m) + psum g r0 c0 =
      psum g r0 (c0 + m) + psum g (r0 + n) c0 + rectSum g (r0 + 1) n (c0 + 1) m := by
  unfold psum
  have e1 : r0 + n + 1 = (r0 + 1) + n := by omega
  have e2 : c0 + m + 1 = (c0 + 1) + m := by omega
  rw [e1, e2, rectSum_rows g 0 (r0 + 1) n 0 (c0 + 1 + m), rectSum_cols g 0 (r0 + 1) 0 (c0 + 1) m,
    rectSum_cols g (0 + (r0 + 1)) n 0 (c0 + 1) m, rectSum_rows g 0 (r0 + 1) n 0 (c0 + 1)]
  simp only [Nat.zero_add]
  omega

theorem psum_zero_zero (g : Grid) : psum g 0 0 = cell g 0 0 := by
  simp [psum, rectSum, sumRange]

theorem psum_zero_succ (g : Grid) (j : Nat) :
    psum g 0 (j + 1) = cell g 0 (j + 1) + psum g 0 j := by
  unfold psum
  rw [rectSum_cols g 0 (0 + 1) 0 (j + 1) 1]
  simp only [Nat.zero_add, rectSum_one_one]
  omega

theorem psum_succ_zero (g : Grid) (i : Nat) :
    psum g (i + 1) 0 = cell g (i + 1) 0 + psum g i 0 := by
  unfold psum
  rw [rectSum_rows g 0 (i + 1) 1 0 (0 + 1)]
  simp only [Nat.zero_add, rectSum_one_one]
  omega

theorem psum_succ_succ (g : Grid) (i j : Nat) :
    psum g (i + 1) (j + 1) + psum g i j =
      cell g (i + 1) (j + 1) + psum g (i + 1) j + psum g i (j + 1) := by
  have h := psum_four_corner g i j 1 1
  rw [rectSum_one_one] at h
  omega

/-! ## Correctness of `SummedAreaTable` modulo `2^32` -/

theorem U32_pos : 0 < U32 := by unfold U32; norm_num

theorem U32_dvd_U64 : U32 ∣ U64 := by
  unfold U32 U64
  exact pow_dvd_pow 2 (by norm_num)

theorem trunc32_uadd64 (v a : Nat) : trunc32 (uadd64 v a) = (v + a) % U32 := by
  unfold trunc32 uadd64
  exact Nat.mod_mod_of_dvd _ U32_dvd_U64

theorem trunc32_sat4 (v a b c pa pb pc p : Nat) (ha : a = pa % U32) (hb : b = pb % U32)
    (hc : c = pc % U32) (hp : p + pc = v + pa + pb) :
    trunc32 (usub64 (uadd64 (uadd64 v a) b) c) = p % U32 := by
  have hcl : c < U32 := by rw [hc]; exact Nat.mod_lt _ U32_pos
  have hle : U32 ≤ U64 := Nat.le_of_dvd (by unfold U64; norm_num) U32_dvd_U64
  unfold trunc32 usub64
  rw [Nat.mod_mod_of_dvd _ U32_dvd_U64]
  have h1 : (uadd64 (uadd64 v a) b) % U32 = (v + a + b) % U32 := by
    unfold uadd64
    rw [Nat.mod_mod_of_dvd _ U32_dvd_U64, Nat.add_mod, Nat.mod_mod_of_dvd _ U32_dvd_U64,
      ← Nat.add_mod]
  generalize uadd64 (uadd64 v a) b = y at h1
  have key : (y + U64 - c + c) % U32 = (p + c) % U32 := by
    have : y + U64 - c + c = y + U64 := by omega
    rw [this]
    obtain ⟨q, hq⟩ := U32_dvd_U64
    rw [hq, Nat.add_mul_mod_self_left, h1]
    have h2 : (v + a + b) % U32 = (v + pa + pb) % U32 := by
      rw [ha, hb]
      simp [Nat.add_mod]
    rw [h2, ← hp, hc]
    simp [Nat.add_mod]
  exact Nat.ModEq.add_right_cancel' c key


theorem satStep_total (g sat : Grid) (H W i j : Nat) (hg : Shape H W g) (hs : Shape H W sat)
    (hi : i < H) (hj : j < W) (hH : H < U32) (hW : W < U32)
    (hleft : 0 < j → cell sat i (j - 1) = psum g i (j - 1) % U32)
    (hup : 0 < i → cell sat (i - 1) j = psum g (i - 1) j % U32)
    (hdiag : 0 < i → 0 < j → cell sat (i - 1) (j - 1) = psum g (i - 1) (j - 1) % U32) :
    satStep g i j sat = some (setCell sat i j (psum g i j % U32)) := by
  unfold satStep
  rw [readCell_of_shape hg hi hj]
  rcases Nat.eq_zero_or_pos i with hi0 | hi0
  · rcases Nat.eq_zero_or_pos j with hj0 | hj0
    · subst hi0; subst hj0
      simp [writeCell_of_shape hs _ hi hj, trunc32, psum_zero_zero]
    · subst hi0
      have hj1 : usub32 j 1 = j - 1 := usub32_of_le j 1 hj0 (by omega)
      have hjn : j ≠ 0 := by omega
      obtain ⟨n, rfl⟩ : ∃ n, j = n + 1 := ⟨j - 1, by omega⟩
      simp [hj1, readCell_of_shape hs hi (show n < W by omega),
        writeCell_of_shape hs _ hi hj, trunc32_uadd64]
      have := hleft hj0
      simp only [Nat.add_sub_cancel] at this
      rw [this, psum_zero_succ, Nat.add_mod_mod]
  · obtain ⟨m, rfl⟩ : ∃ m, i = m + 1 := ⟨i - 1, by omega⟩
    have hi1 : usub32 (m + 1) 1 = m := by
      rw [usub32_of_le (m + 1) 1 (by omega) (by omega)]; rfl
    rcases Nat.eq_zero_or_pos j with hj0 | hj0
    · subst hj0
      simp [hi1, readCell_of_shape hs (show m < H by omega) hj,
        writeCell_of_shape hs _ hi hj, trunc32_uadd64]
      have := hup hi0
      simp only [Nat.add_sub_cancel] at this
      rw [this, psum_succ_zero, Nat.add_mod_mod]
    · obtain ⟨n, rfl⟩ : ∃ n, j = n + 1 := ⟨j - 1, by omega⟩
      have hj1 : usub32 (n + 1) 1 = n := by
        rw [usub32_of_le (n + 1) 1 (by omega) (by omega)]; rfl
      have h1 := hleft hj0
      have h2 := hup hi0
      have h3 := hdiag hi0 hj0
      simp only [Nat.add_sub_cancel] at h1 h2 h3
      simp [hi1, hj1, readCell_of_shape hs hi (show n < W by omega),
        readCell_of_shape hs (show m < H by omega) hj,
        readCell_of_shape hs (show m < H by omega) (show n < W by omega),
        writeCell_of_shape hs _ hi hj]
      rw [trunc32_sat4 _ _ _ _ _ _ _ _ h1 h2 h3 (psum_succ_succ g m n)]

theorem shape_replicate (H W v : Nat) : Shape H W (List.replicate H (List.replicate W v)) := by
  refine ⟨List.length_replicate _ _, ?_⟩
  intro row hrow
  rw [List.eq_of_mem_replicate hrow]
  exact List.length_replicate _ _

theorem WellFormed.shape {img : cImage} (h : WellFormed img) :
    Shape img.y_pixels img.x_pixels img.image := ⟨h.rows, h.cols⟩

/-- On a well-formed image `SummedAreaTable` returns a table of the same dimensions whose entry
at `(i, j)` is the inclusive prefix sum reduced modulo `2^32`. -/
theorem SummedAreaTable_total (img : cImage) (hwf : WellFormed img) :
    ∃ sat, SummedAreaTable img = some sat ∧ Shape img.y_pixels img.x_pixels sat ∧
      ∀ i j, i < img.y_pixels → j < img.x_pixels →
        cell sat i j = psum img.image i j % U32 := by
  have hg := hwf.shape
  generalize hH : img.y_pixels = H at hg
  generalize hW : img.x_pixels = W at hg
  have hHlt : H < U32 := by rw [← hH]; exact hwf.ylt
  have hWlt : W < U32 := by rw [← hW]; exact hwf.xlt
  unfold SummedAreaTable
  rw [hH, hW]
  obtain ⟨t, ht, hst, hct⟩ := forLoop_inv
    (fun i t => Shape H W t ∧
      ∀ r c, r < i → c < W → cell t r c = psum img.image r c % U32)
    (fun i sat => forLoop (fun j sat => satStep img.image i j sat) 0 W sat) 0 H _
    (Nat.zero_le _) ⟨shape_replicate H W 0, fun r c hr _ => by omega⟩
    (fun i t _ hi hP => by
      obtain ⟨hst, hct⟩ := hP
      obtain ⟨u, hu, hsu, hcu⟩ := forLoop_inv
        (fun j u => Shape H W u ∧
          (∀ r c, r < i → c < W → cell u r c = psum img.image r c % U32) ∧
          ∀ c, c < j → cell u i c = psum img.image i c % U32)
        (fun j sat => satStep img.image i j sat) 0 W t (Nat.zero_le _)
        ⟨hst, hct, fun c hc => by omega⟩
        (fun j u _ hj hQ => by
          obtain ⟨hsu, hprev, hrow⟩ := hQ
          refine ⟨_, satStep_total img.image u H W i j hg hsu hi hj hHlt hWlt
            (fun h => hrow _ (by omega)) (fun h => hprev _ _ (by omega) hj)
            (fun h1 h2 => hprev _ _ (by omega) (by omega)), shape_setCell hsu i j _, ?_, ?_⟩
          · intro r c hr hc
            rw [cell_setCell hsu _ hi hj, if_neg (by omega)]
            exact hprev r c hr hc
          · intro c hc
            rw [cell_setCell hsu _ hi hj]
            by_cases e : c = j
            · rw [if_pos ⟨rfl, e⟩, e]
            · rw [if_neg (by omega)]
              exact hrow c (by omega))
      refine ⟨u, hu, hsu, ?_⟩
      intro r c hr hc
      by_cases e : r = i
      · rw [e]; exact hcu.2 c hc
      · exact hcu.1 r c (by omega) hc)
  exact ⟨t, ht, hst, fun i j hi hj => hct i j hi hj⟩


/-! ## The half-widths in closed form -/

theorem cround_nonneg (q : ℚ) (h : 0 ≤ q) : cround q = ⌊q + 1 / 2⌋ := by
  simp [cround, h]

theorem floor_nat_add (n : Nat) (r : ℚ) (h0 : 0 ≤ r) (h1 : r < 1) :
    ⌊(n : ℚ) + r⌋ = (n : ℤ) := by
  rw [Int.floor_eq_iff]
  constructor
  · simp only [Int.cast_natCast]; linarith
  · simp only [Int.cast_natCast]; linarith

/-- The half-width of `LocalIntensity` is `⌊window/2⌋`. -/
theorem LocalIntensity_d_eq (window : Nat) : LocalIntensity_d window = window / 2 := by
  unfold LocalIntensity_d
  generalize window / 2 = n
  have h0 : (0 : ℚ) ≤ (n : ℚ) + 1 / 10 := by positivity
  rw [cround_nonneg _ h0]
  have : (n : ℚ) + 1 / 10 + 1 / 2 = (n : ℚ) + 3 / 5 := by ring
  rw [this, floor_nat_add n _ (by norm_num) (by norm_num)]
  exact Int.toNat_natCast n

/-- The half-width of `Thresholding` is `⌈window/2⌉`. -/
theorem Thresholding_d_eq (window : Nat) : Thresholding_d window = (window + 1) / 2 := by
  unfold Thresholding_d
  have h0 : (0 : ℚ) ≤ (window : ℚ) / 2 + 1 / 10 := by positivity
  rw [cround_nonneg _ h0]
  obtain ⟨n, hn | hn⟩ := Nat.even_or_odd' window
  · have e : (window + 1) / 2 = n := by omega
    have : (window : ℚ) / 2 + 1 / 10 + 1 / 2 = (n : ℚ) + 3 / 5 := by
      rw [hn]; push_cast; ring
    rw [e, this, floor_nat_add n _ (by norm_num) (by norm_num)]
    exact Int.toNat_natCast n
  · have e : (window + 1) / 2 = n + 1 := by omega
    have : (window : ℚ) / 2 + 1 / 10 + 1 / 2 = ((n + 1 : Nat) : ℚ) + 1 / 10 := by
      rw [hn]; push_cast; ring
    rw [e, this, floor_nat_add (n + 1) _ (by norm_num) (by norm_num)]
    exact Int.toNat_natCast (n + 1)

/-! ## `LocalIntensity` on a summed-area table -/

theorem usub32_add_modEq (y c : Nat) (hc : c < U32) : (usub32 y c + c) % U32 = y % U32 := by
  unfold usub32
  rw [Nat.mod_add_mod]
  have : y + U32 - c + c = y + U32 := by omega
  rw [this, Nat.add_mod_right]

theorem four_corner_mod (a b c e pa pb pc pe S : Nat) (ha : a = pa % U32) (hb : b = pb % U32)
    (hc : c = pc % U32) (he : e = pe % U32) (hsum : pa + pb = pc + pe + S) :
    usub32 (usub32 (uadd32 a b) c) e = S % U32 := by
  have hcl : c < U32 := by rw [hc]; exact Nat.mod_lt _ U32_pos
  have hel : e < U32 := by rw [he]; exact Nat.mod_lt _ U32_pos
  have h1 := usub32_add_modEq (usub32 (uadd32 a b) c) e hel
  have h2 := usub32_add_modEq (uadd32 a b) c hcl
  have h3 : uadd32 a b % U32 = (pa + pb) % U32 := by
    unfold uadd32
    rw [Nat.mod_mod, ha, hb, ← Nat.add_mod]
  have hlt : usub32 (usub32 (uadd32 a b) c) e < U32 := Nat.mod_lt _ U32_pos
  generalize usub32 (usub32 (uadd32 a b) c) e = r at h1 hlt
  generalize usub32 (uadd32 a b) c = z at h1 h2
  have key : (r + (e + c)) % U32 = (S + (e + c)) % U32 := by
    have e1 : (r + (e + c)) % U32 = (z + c) % U32 := by
      rw [← Nat.add_assoc, Nat.add_mod, h1, ← Nat.add_mod]
    have e2 : (S + (e + c)) % U32 = (pc + pe + S) % U32 := by
      rw [hc, he]
      have : pc + pe + S = S + (pe + pc) := by omega
      rw [this]
      simp [Nat.add_mod]
    rw [e1, h2, h3, hsum, e2]
  have := Nat.ModEq.add_right_cancel' (e + c) key
  unfold Nat.ModEq at this
  rw [← this, Nat.mod_eq_of_lt hlt]

/-- With half-width `d = window/2 ≥ 1` and all four subscripts in range, `LocalIntensity`
returns, modulo `2^32`, the sum over rows `x-d+1 .. x+d-1` and columns `y-d+1 .. y+d-1`. -/
theorem LocalIntensity_total (g sat : Grid) (H W : Nat) (hsat : Shape H W sat)
    (hcells : ∀ i j, i < H → j < W → cell sat i j = psum g i j % U32)
    (hH : H < U32) (hW : W < U32) (x y window : Nat) (hd : 1 ≤ window / 2)
    (hx : window / 2 ≤ x) (hx2 : x + window / 2 - 1 < H)
    (hy : window / 2 ≤ y) (hy2 : y + window / 2 - 1 < W) :
    LocalIntensity sat x y window =
      some (rectSum g (x - window / 2 + 1) (2 * (window / 2) - 1)
        (y - window / 2 + 1) (2 * (window / 2) - 1) % U32) := by
  unfold LocalIntensity
  simp only [LocalIntensity_d_eq]
  generalize window / 2 = d at *
  have ex1 : usub32 (uadd32 x d) 1 = x + d - 1 := by
    rw [uadd32_of_lt _ _ (by omega), usub32_of_le _ _ (by omega) (by omega)]
  have ey1 : usub32 (uadd32 y d) 1 = y + d - 1 := by
    rw [uadd32_of_lt _ _ (by omega), usub32_of_le _ _ (by omega) (by omega)]
  have ex0 : usub32 x d = x - d := usub32_of_le _ _ hx (by omega)
  have ey0 : usub32 y d = y - d := usub32_of_le _ _ hy (by omega)
  rw [ex1, ey1, ex0, ey0]
  rw [readCell_of_shape hsat hx2 hy2, readCell_of_shape hsat (show x - d < H by omega)
    (show y - d < W by omega), readCell_of_shape hsat (show x - d < H by omega) hy2,
    readCell_of_shape hsat hx2 (show y - d < W by omega)]
  simp only [Option.bind_eq_bind, Option.some_bind]
  have h := psum_four_corner g (x - d) (y - d) (2 * d - 1) (2 * d - 1)
  have e1 : x - d + (2 * d - 1) = x + d - 1 := by omega
  have e2 : y - d + (2 * d - 1) = y + d - 1 := by omega
  rw [e1, e2] at h
  rw [four_corner_mod _ _ _ _ _ _ _ _ _ (hcells _ _ hx2 hy2)
    (hcells _ _ (by omega) (by omega)) (hcells _ _ (by omega) hy2)
    (hcells _ _ hx2 (by omega)) h]

/-- With half-width `d = window/2 = 0` (window 0 or 1) and `x, y ≥ 1` in range,
`LocalIntensity` returns, modulo `2^32`, the single entry at `(x, y)`. -/
theorem LocalIntensity_total_zero (g sat : Grid) (H W : Nat) (hsat : Shape H W sat)
    (hcells : ∀ i j, i < H → j < W → cell sat i j = psum g i j % U32)
    (hH : H < U32) (hW : W < U32) (x y window : Nat) (hd : window / 2 = 0)
    (hx : 1 ≤ x) (hx2 : x < H) (hy : 1 ≤ y) (hy2 : y < W) :
    LocalIntensity sat x y window = some (cell g x y % U32) := by
  unfold LocalIntensity
  simp only [LocalIntensity_d_eq, hd]
  have ex1 : usub32 (uadd32 x 0) 1 = x - 1 := by
    rw [uadd32_of_lt _ _ (by omega), usub32_of_le _ _ (by omega) (by omega)]; rfl
  have ey1 : usub32 (uadd32 y 0) 1 = y - 1 := by
    rw [uadd32_of_lt _ _ (by omega), usub32_of_le _ _ (by omega) (by omega)]; rfl
  have ex0 : usub32 x 0 = x := usub32_of_le _ _ (Nat.zero_le _) (by omega)
  have ey0 : usub32 y 0 = y := usub32_of_le _ _ (Nat.zero_le _) (by omega)
  rw [ex1, ey1, ex0, ey0]
  rw [readCell_of_shape hsat (show x - 1 < H by omega) (show y - 1 < W by omega),
    readCell_of_shape hsat hx2 hy2, readCell_of_shape hsat hx2 (show y - 1 < W by omega),
    readCell_of_shape hsat (show x - 1 < H by omega) hy2]
  simp only [Option.bind_eq_bind, Option.some_bind]
  have h := psum_four_corner g (x - 1) (y - 1) 1 1
  have e1 : x - 1 + 1 = x := by omega
  have e2 : y - 1 + 1 = y := by omega
  rw [e1, e2, rectSum_one_one] at h
  have h2 : psum g (x - 1) (y - 1) + psum g x y =
      psum g x (y - 1) + psum g (x - 1) y + cell g x y := by omega
  rw [four_corner_mod _ _ _ _ _ _ _ _ _ (hcells _ _ (by omega) (by omega))
    (hcells _ _ hx2 hy2) (hcells _ _ hx2 (by omega)) (hcells _ _ (by omega) hy2) h2]


/-! ## `Thresholding` -/

theorem interiorStep_eq (tabsum : Grid) (window : Nat) (k : ℚ) (i j s : Nat) (H W : Nat)
    (t : Grid) (hst : Shape H W t) (hi : i < H) (hj : j < W)
    (hs : LocalIntensity tabsum i j window = some s) :
    interiorStep tabsum window k i j t =
      some (setCell t i j (if rule (cell t i j) (localMean s window) k then 255 else 0)) := by
  unfold interiorStep
  rw [hs, readCell_of_shape hst hi hj]
  simp only [Option.bind_eq_bind, Option.some_bind]
  by_cases hr : rule (cell t i j) (localMean s window) k = true
  · rw [if_pos hr, if_pos hr]; exact writeCell_of_shape hst _ hi hj
  · rw [if_neg hr, if_neg hr]; exact writeCell_of_shape hst _ hi hj

/-- In the interior that `Thresholding` visits, every `LocalIntensity` call succeeds. -/
theorem LocalIntensity_interior (g sat : Grid) (H W : Nat) (hsat : Shape H W sat)
    (hcells : ∀ i j, i < H → j < W → cell sat i j = psum g i j % U32)
    (hH : H < U32) (hW : W < U32) (window : Nat) (hw : 1 ≤ window) (i j : Nat)
    (hi : (window + 1) / 2 ≤ i) (hi2 : i + (window + 1) / 2 < H)
    (hj : (window + 1) / 2 ≤ j) (hj2 : j + (window + 1) / 2 < W) :
    ∃ s, LocalIntensity sat i j window = some s := by
  by_cases hd : window / 2 = 0
  · exact ⟨_, LocalIntensity_total_zero g sat H W hsat hcells hH hW i j window hd
      (by omega) (by omega) (by omega) (by omega)⟩
  · exact ⟨_, LocalIntensity_total g sat H W hsat hcells hH hW i j window (by omega)
      (by omega) (by omega) (by omega) (by omega)⟩

/-- Total correctness of `Thresholding` for `window ≥ 1` when the frame fits in the grid
(`d ≤ H` and `d ≤ W` for `d = Thresholding_d window`): the call returns an image with the
attributes of the receiver, zero on the frame, and decided by `rule` on the interior. -/
theorem Thresholding_total (load : String → cImage) (img : cImage) (hwf : WellFormed img)
    (hload : load img.image_name = img) (window : Nat) (hw : 1 ≤ window) (k : ℚ)
    (hH : Thresholding_d window ≤ img.y_pixels) (hW : Thresholding_d window ≤ img.x_pixels) :
    ∃ sat out, SummedAreaTable img = some sat ∧ Thresholding load img window k = some out ∧
      out.x_pixels = img.x_pixels ∧ out.y_pixels = img.y_pixels ∧
      out.image_name = img.image_name ∧ Shape img.y_pixels img.x_pixels out.image ∧
      ∀ i j, i < img.y_pixels → j < img.x_pixels →
        (Interior img.y_pixels img.x_pixels (Thresholding_d window) i j →
          ∃ s, LocalIntensity sat i j window = some s ∧
            cell out.image i j =
              if rule (cell img.image i j) (localMean s window) k then 255 else 0) ∧
        (¬ Interior img.y_pixels img.x_pixels (Thresholding_d window) i j →
          cell out.image i j = 0) := by
  obtain ⟨sat, hsat, hss, hsc⟩ := SummedAreaTable_total img hwf
  have hg := hwf.shape
  have hHlt := hwf.ylt
  have hWlt := hwf.xlt
  rw [Thresholding_d_eq] at hH hW
  have eH : usub32 img.y_pixels ((window + 1) / 2) = img.y_pixels - (window + 1) / 2 :=
    usub32_of_le _ _ hH hHlt
  have eW : usub32 img.x_pixels ((window + 1) / 2) = img.x_pixels - (window + 1) / 2 :=
    usub32_of_le _ _ hW hWlt
  obtain ⟨g1, h1, hs1, hc1⟩ := zeroRect_total img.y_pixels img.x_pixels 0 ((window + 1) / 2)
    0 img.x_pixels img.image hg hH (le_refl _)
  obtain ⟨g2, h2, hs2, hc2⟩ := zeroRect_total img.y_pixels img.x_pixels
    (img.y_pixels - (window + 1) / 2) img.y_pixels 0 img.x_pixels g1 hs1 (le_refl _) (le_refl _)
  obtain ⟨g3, h3, hs3, hc3⟩ := zeroRect_total img.y_pixels img.x_pixels ((window + 1) / 2)
    (img.y_pixels - (window + 1) / 2) 0 ((window + 1) / 2) g2 hs2 (Nat.sub_le _ _) hW
  obtain ⟨g4, h4, hs4, hc4⟩ := zeroRect_total img.y_pixels img.x_pixels ((window + 1) / 2)
    (img.y_pixels - (window + 1) / 2) (img.x_pixels - (window + 1) / 2) img.x_pixels g3 hs3
    (Nat.sub_le _ _) (le_refl _)
  obtain ⟨g5, h5, hs5, hc5⟩ := rectLoop_total
    (fun i j t => interiorStep sat window k i j t)
    (fun i j => if rule (cell g4 i j)
      (localMean ((LocalIntensity sat i j window).getD 0) window) k then 255 else 0)
    img.y_pixels img.x_pixels ((window + 1) / 2) (img.y_pixels - (window + 1) / 2)
    ((window + 1) / 2) (img.x_pixels - (window + 1) / 2) g4 hs4
    (Nat.sub_le _ _) (Nat.sub_le _ _)
    (fun i j t hi1 hi2 hj1 hj2 hst hcur => by
      obtain ⟨s, hs⟩ := LocalIntensity_interior img.image sat img.y_pixels img.x_pixels hss hsc
        hHlt hWlt window hw i j hi1 (by omega) hj1 (by omega)
      show interiorStep sat window k i j t = some (setCell t i j (if rule (cell g4 i j)
        (localMean ((LocalIntensity sat i j window).getD 0) window) k then 255 else 0))
      rw [interiorStep_eq sat window k i j s img.y_pixels img.x_pixels t hst (by omega)
        (by omega) hs, hcur, hs]
      rfl)
  refine ⟨sat, { img with image := g5 }, hsat, ?_, rfl, rfl, rfl, hs5, ?_⟩
  · simp only [Thresholding, hload, hsat, Thresholding_d_eq, Option.bind_eq_bind,
      Option.some_bind, eH, eW, h1, h2, h3, h4, h5]
  · intro i j hi hj
    rw [Thresholding_d_eq]
    unfold Interior
    constructor
    · intro hint
      obtain ⟨s, hs⟩ := LocalIntensity_interior img.image sat img.y_pixels img.x_pixels hss hsc
        hHlt hWlt window hw i j hint.1 hint.2.1 hint.2.2.1 hint.2.2.2
      refine ⟨s, hs, ?_⟩
      have e4 : cell g4 i j = cell img.image i j := by
        rw [hc4 i j, if_neg (by omega), hc3 i j, if_neg (by omega), hc2 i j,
          if_neg (by omega), hc1 i j, if_neg (by omega)]
      show cell g5 i j = _
      rw [hc5 i j, if_pos (by omega), hs, e4]
      rfl
    · intro hint
      show cell g5 i j = 0
      rw [hc5 i j, if_neg (by omega), hc4 i j]
      by_cases e4 : (window + 1) / 2 ≤ i ∧ i < img.y_pixels - (window + 1) / 2 ∧
          img.x_pixels - (window + 1) / 2 ≤ j ∧ j < img.x_pixels
      · rw [if_pos e4]
      · rw [if_neg e4, hc3 i j]
        by_cases e3 : (window + 1) / 2 ≤ i ∧ i < img.y_pixels - (window + 1) / 2 ∧
            0 ≤ j ∧ j < (window + 1) / 2
        · rw [if_pos e3]
        · rw [if_neg e3, hc2 i j]
          by_cases e2 : img.y_pixels - (window + 1) / 2 ≤ i ∧ i < img.y_pixels ∧
              0 ≤ j ∧ j < img.x_pixels
          · rw [if_pos e2]
          · rw [if_neg e2, hc1 i j, if_pos (by omega)]


/-! ## Runs of `Thresholding` that complete -/

theorem mem_cell {H W : Nat} {g : Grid} (hs : Shape H W g) {row : List Nat} (hrow : row ∈ g)
    {v : Nat} (hv : v ∈ row) : ∃ i j, i < H ∧ j < W ∧ cell g i j = v := by
  obtain ⟨i, hi, hgi⟩ := List.getElem_of_mem hrow
  obtain ⟨j, hj, hrj⟩ := List.getElem_of_mem hv
  have hlen := hs.2 row hrow
  refine ⟨i, j, by rw [← hs.1]; exact hi, by rw [← hlen]; exact hj, ?_⟩
  unfold cell
  rw [List.getD_eq_getElem _ _ hi, hgi, List.getD_eq_getElem _ _ hj, hrj]

theorem interiorStep_some_shape {H W : Nat} {g t : Grid} (hs : Shape H W g)
    (tabsum : Grid) (window : Nat) (k : ℚ) (i j : Nat)
    (h : interiorStep tabsum window k i j g = some t) : Shape H W t := by
  unfold interiorStep at h
  simp only [Option.bind_eq_bind, Option.bind_eq_some] at h
  obtain ⟨s, _, p, _, h⟩ := h
  by_cases hr : rule p (localMean s window) k = true
  · rw [if_pos hr] at h; exact writeCell_some_shape hs h
  · rw [if_neg hr] at h; exact writeCell_some_shape hs h

theorem interiorLoop_preserves (H W : Nat) (tabsum : Grid) (window : Nat) (k : ℚ)
    (r0 r1 c0 c1 : Nat) (g t : Grid) (hs : Shape H W g)
    (h : forLoop (fun i t => forLoop (fun j t => interiorStep tabsum window k i j t) c0 c1 t)
      r0 r1 g = some t) : Shape H W t := by
  refine iterate_preserves (Shape H W) _ ?_ (r1 - r0) r0 g t hs h
  intro i s u hsS hu
  refine iterate_preserves (Shape H W) _ ?_ (c1 - c0) c0 s u hsS hu
  intro j s u hsS hu
  exact interiorStep_some_shape hsS tabsum window k i j hu

/-- A completed run of `Thresholding` went through its six stages. -/
theorem Thresholding_some (load : String → cImage) (img : cImage) (window : Nat) (k : ℚ)
    (out : cImage) (h : Thresholding load img window k = some out) :
    ∃ sat g1 g2 g3 g4 g5, SummedAreaTable (load img.image_name) = some sat ∧
      zeroRect 0 (Thresholding_d window) 0 img.x_pixels (load img.image_name).image = some g1 ∧
      zeroRect (usub32 img.y_pixels (Thresholding_d window)) img.y_pixels 0 img.x_pixels g1
        = some g2 ∧
      zeroRect (Thresholding_d window) (usub32 img.y_pixels (Thresholding_d window)) 0
        (Thresholding_d window) g2 = some g3 ∧
      zeroRect (Thresholding_d window) (usub32 img.y_pixels (Thresholding_d window))
        (usub32 img.x_pixels (Thresholding_d window)) img.x_pixels g3 = some g4 ∧
      forLoop (fun i t => forLoop (fun j t => interiorStep sat window k i j t)
        (Thresholding_d window) (usub32 img.x_pixels (Thresholding_d window)) t)
        (Thresholding_d window) (usub32 img.y_pixels (Thresholding_d window)) g4 = some g5 ∧
      out = { load img.image_name with image := g5 } := by
  unfold Thresholding at h
  simp only [Option.bind_eq_bind, Option.bind_eq_some] at h
  obtain ⟨sat, hsat, g1, h1, g2, h2, g3, h3, g4, h4, g5, h5, hout⟩ := h
  exact ⟨sat, g1, g2, g3, g4, g5, hsat, h1, h2, h3, h4, h5, (Option.some.inj hout).symm⟩


/-- With `window = 0` the first interior pixel `(0, 0)` is queried at row `0 + 0 - 1`, which
wraps to `2^32 - 1`: the run does not complete on a non-empty grid. -/
theorem interiorLoop_none_window_zero (H W : Nat) (sat g : Grid) (k : ℚ)
    (hsat : Shape H W sat) (hg : Shape H W g) (hH : H < U32) (hH0 : 0 < H) (hW0 : 0 < W) :
    forLoop (fun i t => forLoop (fun j t => interiorStep sat 0 k i j t) 0 W t) 0 H g = none := by
  refine iterate_none (Shape H W) _
    (fun i s t hsS hu => iterate_preserves (Shape H W) _
      (fun j s u hsS hu => interiorStep_some_shape hsS sat 0 k i j hu) (W - 0) 0 s t hsS hu)
    0 ?_ (H - 0) 0 g hg (le_refl _) (by omega)
  intro s hsS
  refine iterate_none (Shape H W) _
    (fun j s u hsS hu => interiorStep_some_shape hsS sat 0 k 0 j hu) 0 ?_ (W - 0) 0 s hsS
    (le_refl _) (by omega)
  intro s _
  have hrow : usub32 (uadd32 0 (LocalIntensity_d 0)) 1 = U32 - 1 := by
    rw [LocalIntensity_d_eq]
    unfold usub32 uadd32
    rw [Nat.zero_div, Nat.add_zero, Nat.zero_mod, Nat.zero_add,
      Nat.mod_eq_of_lt (Nat.sub_lt U32_pos Nat.one_pos)]
  unfold interiorStep LocalIntensity
  simp only [hrow]
  rw [readCell_none_of_row hsat (show H ≤ U32 - 1 by omega)]
  rfl

/-- Every cell of a grid returned by `Thresholding` is `0` or `255`. -/
theorem Thresholding_cells (load : String → cImage) (img : cImage) (hwf : WellFormed img)
    (hload : load img.image_name = img) (window : Nat) (k : ℚ) (out : cImage)
    (h : Thresholding load img window k = some out) :
    Shape img.y_pixels img.x_pixels out.image ∧
      ∀ i j, i < img.y_pixels → j < img.x_pixels →
        cell out.image i j = 0 ∨ cell out.image i j = 255 := by
  obtain ⟨sat, g1, g2, g3, g4, g5, hsat, h1, h2, h3, h4, h5, hout⟩ :=
    Thresholding_some load img window k out h
  rw [hload] at hsat h1 hout
  have hg := hwf.shape
  have hHlt := hwf.ylt
  have hWlt := hwf.xlt
  obtain ⟨sat2, hsat2, hss, _⟩ := SummedAreaTable_total img hwf
  rw [hsat] at hsat2
  cases hsat2
  have hs1 := zeroRect_preserves _ _ _ _ _ _ _ _ hg h1
  have hs2 := zeroRect_preserves _ _ _ _ _ _ _ _ hs1 h2
  have hs3 := zeroRect_preserves _ _ _ _ _ _ _ _ hs2 h3
  have hs4 := zeroRect_preserves _ _ _ _ _ _ _ _ hs3 h4
  have hs5 := interiorLoop_preserves _ _ _ _ _ _ _ _ _ _ _ hs4 h5
  have himg : out.image = g5 := by rw [hout]
  rw [himg]
  refine ⟨hs5, ?_⟩
  intro i j hi hj
  rw [Thresholding_d_eq] at h1 h2 h3 h4 h5
  by_cases hdH : (window + 1) / 2 ≤ img.y_pixels
  · have eH : usub32 img.y_pixels ((window + 1) / 2) = img.y_pixels - (window + 1) / 2 :=
      usub32_of_le _ _ hdH hHlt
    rw [eH] at h2 h3 h4 h5
    by_cases hdW : (window + 1) / 2 ≤ img.x_pixels
    · by_cases hw : 1 ≤ window
      · obtain ⟨_, out2, _, hout2, _, _, _, _, hcells⟩ := Thresholding_total load img hwf hload
          window hw k (by rw [Thresholding_d_eq]; exact hdH) (by rw [Thresholding_d_eq]; exact hdW)
        rw [h] at hout2
        cases hout2
        rw [← himg]
        by_cases hint : Interior img.y_pixels img.x_pixels (Thresholding_d window) i j
        · obtain ⟨s, _, hc⟩ := (hcells i j hi hj).1 hint
          rw [hc]
          by_cases hr : rule (cell img.image i j) (localMean s window) k = true
          · right; rw [if_pos hr]
          · left; rw [if_neg hr]
        · left; exact (hcells i j hi hj).2 hint
      · exfalso
        have hw0 : window = 0 := by omega
        subst hw0
        have eW : usub32 img.x_pixels ((0 + 1) / 2) = img.x_pixels := by
          rw [usub32_of_le _ _ hdW hWlt]; rfl
        rw [eW] at h5
        have hnone := interiorLoop_none_window_zero img.y_pixels img.x_pixels sat g4 k hss hs4
          hHlt (by omega) (by omega)
        have e0 : (0 + 1) / 2 = 0 := rfl
        rw [e0, Nat.sub_zero] at h5
        rw [hnone] at h5
        cases h5
    · by_cases h2d : (window + 1) / 2 < img.y_pixels - (window + 1) / 2
      · exfalso
        rw [zeroRect_none img.y_pixels img.x_pixels _ _ _ _ g2 hs2 h2d (by omega)
          (Or.inr (by omega))] at h3
        cases h3
      · have e3 : g3 = g2 := by
          have := forLoop_empty (fun i t => forLoop (fun j t => writeCell t i j 0) 0
            ((window + 1) / 2) t) ((window + 1) / 2) (img.y_pixels - (window + 1) / 2) g2
            (by omega)
          unfold zeroRect at h3
          rw [this] at h3
          exact (Option.some.inj h3).symm
        have e4 : g4 = g3 := by
          have := forLoop_empty (fun i t => forLoop (fun j t => writeCell t i j 0)
            (usub32 img.x_pixels ((window + 1) / 2)) img.x_pixels t) ((window + 1) / 2)
            (img.y_pixels - (window + 1) / 2) g3 (by omega)
          unfold zeroRect at h4
          rw [this] at h4
          exact (Option.some.inj h4).symm
        have e5 : g5 = g4 := by
          have := forLoop_empty (fun i t => forLoop
            (fun j t => interiorStep sat window k i j t) ((window + 1) / 2)
            (usub32 img.x_pixels ((window + 1) / 2)) t) ((window + 1) / 2)
            (img.y_pixels - (window + 1) / 2) g4 (by omega)
          rw [this] at h5
          exact (Option.some.inj h5).symm
        obtain ⟨t1, ht1, hst1, hc1⟩ := zeroRect_total img.y_pixels img.x_pixels 0
          ((window + 1) / 2) 0 img.x_pixels img.image hg hdH (le_refl _)
        rw [h1] at ht1
        cases ht1
        obtain ⟨t2, ht2, hst2, hc2⟩ := zeroRect_total img.y_pixels img.x_pixels
          (img.y_pixels - (window + 1) / 2) img.y_pixels 0 img.x_pixels g1 hs1 (le_refl _)
          (le_refl _)
        rw [h2] at ht2
        cases ht2
        left
        rw [e5, e4, e3, hc2 i j]
        by_cases e : img.y_pixels - (window + 1) / 2 ≤ i ∧ i < img.y_pixels ∧ 0 ≤ j ∧
            j < img.x_pixels
        · rw [if_pos e]
        · rw [if_neg e, hc1 i j, if_pos (by omega)]
  · exfalso
    rw [zeroRect_none img.y_pixels img.x_pixels _ _ _ _ img.image hg (by omega) (by omega)
      (Or.inl (by omega))] at h1
    cases h1


/-- The run of `Thresholding` does not complete when its frame is thicker than the grid is
high. -/
theorem Thresholding_none_of_rows (load : String → cImage) (img : cImage) (hwf : WellFormed img)
    (hload : load img.image_name = img) (window : Nat) (k : ℚ) (hW : 0 < img.x_pixels)
    (hd : img.y_pixels < Thresholding_d window) : Thresholding load img window k = none := by
  cases h : Thresholding load img window k with
  | none => rfl
  | some out =>
    exfalso
    obtain ⟨sat, g1, g2, g3, g4, g5, _, h1, _⟩ := Thresholding_some load img window k out h
    rw [hload, zeroRect_none img.y_pixels img.x_pixels _ _ _ _ img.image hwf.shape
      (by omega) hW (Or.inl hd)] at h1
    cases h1

/-! ## Concrete facts -/

theorem wellFormed_flat9 : WellFormed flat9 := ⟨by decide, by decide, by decide, by decide, by decide⟩

theorem wellFormed_flat3 : WellFormed flat3 := ⟨by decide, by decide, by decide, by decide, by decide⟩

theorem wellFormed_ones3 : WellFormed ones3 := ⟨by decide, by decide, by decide, by decide, by decide⟩

theorem wellFormed_ones2 : WellFormed ones2 := ⟨by decide, by decide, by decide, by decide, by decide⟩

theorem wellFormed_wrapRow : WellFormed wrapRow :=
  ⟨by decide, by decide, by decide, by decide, by decide⟩

theorem wellFormed_dip5 : WellFormed dip5 := ⟨by decide, by decide, by decide, by decide, by decide⟩

/-! ## The claims -/

/-- C1, as stated, fails: on the 1×2 image `[4294967295, 1]` the table holds `0` at `(0, 1)`
while the sum of the source cells with row `≤ 0` and column `≤ 1` is `4294967296`: the stored
value has wrapped. -/
theorem C1_counterexample :
    WellFormed wrapRow ∧ SummedAreaTable wrapRow = some [[4294967295, 0]] ∧
      psum wrapRow.image 0 1 = 4294967296 ∧
      (SummedAreaTable wrapRow).bind (fun t => readCell t 0 1) ≠
        some (psum wrapRow.image 0 1) :=
  ⟨wellFormed_wrapRow, by decide, by decide, by decide⟩

/-- C1, amended: for every rectangular grid of unsigned intensities `SummedAreaTable` returns a
table that holds at every cell `(i, j)` the sum of all source cells with row `≤ i` and column
`≤ j` reduced modulo `2^32`; the entry is exactly that sum whenever the sum is below `2^32`. -/
theorem C1_SummedAreaTable_mod (img : cImage) (hwf : WellFormed img) :
    ∃ sat, SummedAreaTable img = some sat ∧
      ∀ i j, i < img.y_pixels → j < img.x_pixels →
        readCell sat i j = some (psum img.image i j % U32) ∧
        (psum img.image i j < U32 → readCell sat i j = some (psum img.image i j)) := by
  obtain ⟨sat, hsat, hss, hsc⟩ := SummedAreaTable_total img hwf
  refine ⟨sat, hsat, fun i j hi hj => ?_⟩
  have h := readCell_of_shape hss hi hj
  rw [hsc i j hi hj] at h
  refine ⟨h, fun hlt => ?_⟩
  rw [h, Nat.mod_eq_of_lt hlt]

/-- C1, amended, at the 9×9 image of intensity 100. -/
theorem C1_witness :
    ∃ sat, SummedAreaTable flat9 = some sat ∧
      ∀ i j, i < flat9.y_pixels → j < flat9.x_pixels →
        readCell sat i j = some (psum flat9.image i j % U32) ∧
        (psum flat9.image i j < U32 → readCell sat i j = some (psum flat9.image i j)) :=
  C1_SummedAreaTable_mod flat9 wellFormed_flat9

/-- C2, as stated, fails: on the 3×3 image of ones with `window = 2` the pixel `(1, 1)` is
visited by `Thresholding`, `LocalIntensity` returns `1` there, and every square of
`window × window = 4` cells of that image sums to `4`. -/
theorem C2_counterexample :
    WellFormed ones3 ∧ Interior ones3.y_pixels ones3.x_pixels (Thresholding_d 2) 1 1 ∧
      (SummedAreaTable ones3).bind (fun t => LocalIntensity t 1 1 2) = some 1 ∧
      (∀ r, r < 2 → ∀ c, c < 2 → rectSum ones3.image r 2 c 2 = 2 * 2) ∧
      ∀ r, r < 2 → ∀ c, c < 2 →
        (SummedAreaTable ones3).bind (fun t => LocalIntensity t 1 1 2) ≠
          some (rectSum ones3.image r 2 c 2) := by
  have h : (SummedAreaTable ones3).bind (fun t => LocalIntensity t 1 1 2) = some 1 := by
    simp only [LocalIntensity, LocalIntensity_d_eq]; decide
  refine ⟨wellFormed_ones3, ?_, h, by decide, ?_⟩
  · rw [Thresholding_d_eq]; decide
  · rw [h]; decide

/-- C2, amended: for every grid, every even `window ≥ 2` and every interior coordinate
`(row, col)` that `Thresholding` visits, `LocalIntensity` applied to the grid's summed-area
table returns, modulo `2^32`, the brute-force sum of the source intensities over the
`(window-1) × (window-1)` square centred at `(row, col)` (rows `row-(window/2-1)` to
`row+(window/2-1)`, columns likewise); the result is exactly that sum when it is below `2^32`. -/
theorem C2_LocalIntensity_even_window (img : cImage) (hwf : WellFormed img) (window : Nat)
    (hw : 2 ≤ window) (heven : window % 2 = 0) (row col : Nat)
    (hint : Interior img.y_pixels img.x_pixels (Thresholding_d window) row col) :
    ∃ sat, SummedAreaTable img = some sat ∧
      LocalIntensity sat row col window =
        some (rectSum img.image (row - (window / 2 - 1)) (window - 1)
          (col - (window / 2 - 1)) (window - 1) % U32) ∧
      (rectSum img.image (row - (window / 2 - 1)) (window - 1)
          (col - (window / 2 - 1)) (window - 1) < U32 →
        LocalIntensity sat row col window =
          some (rectSum img.image (row - (window / 2 - 1)) (window - 1)
            (col - (window / 2 - 1)) (window - 1))) := by
  obtain ⟨sat, hsat, hss, hsc⟩ := SummedAreaTable_total img hwf
  rw [Thresholding_d_eq] at hint
  obtain ⟨h1, h2, h3, h4⟩ := hint
  have hd : (window + 1) / 2 = window / 2 := by omega
  rw [hd] at h1 h2 h3 h4
  have h := LocalIntensity_total img.image sat img.y_pixels img.x_pixels hss hsc hwf.ylt hwf.xlt
    row col window (by omega) h1 (by omega) h3 (by omega)
  have e1 : row - window / 2 + 1 = row - (window / 2 - 1) := by omega
  have e2 : col - window / 2 + 1 = col - (window / 2 - 1) := by omega
  have e3 : 2 * (window / 2) - 1 = window - 1 := by omega
  rw [e1, e2, e3] at h
  refine ⟨sat, hsat, h, fun hlt => ?_⟩
  rw [h, Nat.mod_eq_of_lt hlt]

/-- C2, amended, at the 3×3 image of ones, `window = 2`, pixel `(1, 1)`. -/
theorem C2_witness :
    ∃ sat, SummedAreaTable ones3 = some sat ∧
      LocalIntensity sat 1 1 2 =
        some (rectSum ones3.image (1 - (2 / 2 - 1)) (2 - 1) (1 - (2 / 2 - 1)) (2 - 1) % U32) ∧
      (rectSum ones3.image (1 - (2 / 2 - 1)) (2 - 1) (1 - (2 / 2 - 1)) (2 - 1) < U32 →
        LocalIntensity sat 1 1 2 =
          some (rectSum ones3.image (1 - (2 / 2 - 1)) (2 - 1) (1 - (2 / 2 - 1)) (2 - 1))) :=
  C2_LocalIntensity_even_window ones3 wellFormed_ones3 2 (by decide) (by decide) 1 1
    (by rw [Thresholding_d_eq]; decide)

/-- C3, as stated, fails: on the 2×2 image of ones with `window = 2` (so `d = 1`) and
`(row, col) = (1, 1)` the preconditions hold, the four-corner expression is `1`, and the sum over
rows `[row-d, row+d-1] = [0, 1]` and columns `[0, 1]` is `4`. -/
theorem C3_counterexample :
    WellFormed ones2 ∧ LocalIntensity_d 2 = 1 ∧ 1 + 1 - 1 < ones2.y_pixels ∧
      1 + 1 - 1 < ones2.x_pixels ∧
      (SummedAreaTable ones2).bind (fun t => LocalIntensity t 1 1 2) = some 1 ∧
      rectSum ones2.image (1 - 1) (2 * 1) (1 - 1) (2 * 1) = 4 ∧
      (SummedAreaTable ones2).bind (fun t => LocalIntensity t 1 1 2) ≠
        some (rectSum ones2.image (1 - 1) (2 * 1) (1 - 1) (2 * 1)) := by
  have h : (SummedAreaTable ones2).bind (fun t => LocalIntensity t 1 1 2) = some 1 := by
    simp only [LocalIntensity, LocalIntensity_d_eq]; decide
  refine ⟨wellFormed_ones2, by rw [LocalIntensity_d_eq], by decide, by decide, h, by decide, ?_⟩
  rw [h]; decide

/-- C3, amended: for every grid, window and `(row, col)` with `d ≥ 1`, `row-d ≥ 0`,
`col-d ≥ 0`, `row+d-1 < H`, `col+d-1 < W`, where `d = round(window/2 + 0.1)` with integer
division, the four-corner expression returned by `LocalIntensity` over the grid's summed-area
table equals, modulo `2^32`, the sum of the source intensities over rows `[row-d+1, row+d-1]`
and columns `[col-d+1, col+d-1]` (both ends inclusive), and equals that sum when it is below
`2^32`. -/
theorem C3_LocalIntensity_four_corner (img : cImage) (hwf : WellFormed img)
    (window row col : Nat) (hd : 1 ≤ LocalIntensity_d window)
    (hr0 : LocalIntensity_d window ≤ row) (hc0 : LocalIntensity_d window ≤ col)
    (hr1 : row + LocalIntensity_d window - 1 < img.y_pixels)
    (hc1 : col + LocalIntensity_d window - 1 < img.x_pixels) :
    ∃ sat, SummedAreaTable img = some sat ∧
      LocalIntensity sat row col window =
        some (rectSum img.image (row - LocalIntensity_d window + 1)
          (2 * LocalIntensity_d window - 1) (col - LocalIntensity_d window + 1)
          (2 * LocalIntensity_d window - 1) % U32) ∧
      (rectSum img.image (row - LocalIntensity_d window + 1)
          (2 * LocalIntensity_d window - 1) (col - LocalIntensity_d window + 1)
          (2 * LocalIntensity_d window - 1) < U32 →
        LocalIntensity sat row col window =
          some (rectSum img.image (row - LocalIntensity_d window + 1)
            (2 * LocalIntensity_d window - 1) (col - LocalIntensity_d window + 1)
            (2 * LocalIntensity_d window - 1))) := by
  obtain ⟨sat, hsat, hss, hsc⟩ := SummedAreaTable_total img hwf
  rw [LocalIntensity_d_eq] at hd hr0 hc0 hr1 hc1 ⊢
  have h := LocalIntensity_total img.image sat img.y_pixels img.x_pixels hss hsc hwf.ylt hwf.xlt
    row col window hd hr0 hr1 hc0 hc1
  refine ⟨sat, hsat, h, fun hlt => ?_⟩
  rw [h, Nat.mod_eq_of_lt hlt]

/-- C3, amended, at the 2×2 image of ones, `window = 2`, `(row, col) = (1, 1)`. -/
theorem C3_witness :
    ∃ sat, SummedAreaTable ones2 = some sat ∧
      LocalIntensity sat 1 1 2 =
        some (rectSum ones2.image (1 - LocalIntensity_d 2 + 1)
          (2 * LocalIntensity_d 2 - 1) (1 - LocalIntensity_d 2 + 1)
          (2 * LocalIntensity_d 2 - 1) % U32) ∧
      (rectSum ones2.image (1 - LocalIntensity_d 2 + 1)
          (2 * LocalIntensity_d 2 - 1) (1 - LocalIntensity_d 2 + 1)
          (2 * LocalIntensity_d 2 - 1) < U32 →
        LocalIntensity sat 1 1 2 =
          some (rectSum ones2.image (1 - LocalIntensity_d 2 + 1)
            (2 * LocalIntensity_d 2 - 1) (1 - LocalIntensity_d 2 + 1)
            (2 * LocalIntensity_d 2 - 1))) :=
  C3_LocalIntensity_four_corner ones2 wellFormed_ones2 2 1 1
    (by rw [LocalIntensity_d_eq]) (by rw [LocalIntensity_d_eq])
    (by rw [LocalIntensity_d_eq]) (by rw [LocalIntensity_d_eq]; decide)
    (by rw [LocalIntensity_d_eq]; decide)

/-- C4: for every window and every rectangular grid with `H > 2d` and `W > 2d`, where
`d = round(window/2 + 0.1)` with integer division of `window` by 2, `Thresholding` returns a
grid that is exactly 0 at every cell `(i, j)` with `i < d`, `i ≥ H-d`, `j < d` or `j ≥ W-d`,
whatever the intensities and `k`. -/
theorem C4_border_zero (load : String → cImage) (img : cImage) (hwf : WellFormed img)
    (hload : load img.image_name = img) (window : Nat) (k : ℚ)
    (hH : 2 * LocalIntensity_d window < img.y_pixels)
    (hW : 2 * LocalIntensity_d window < img.x_pixels)
    (i j : Nat) (hi : i < img.y_pixels) (hj : j < img.x_pixels)
    (hb : i < LocalIntensity_d window ∨ img.y_pixels - LocalIntensity_d window ≤ i ∨
      j < LocalIntensity_d window ∨ img.x_pixels - LocalIntensity_d window ≤ j) :
    ∃ out, Thresholding load img window k = some out ∧ readCell out.image i j = some 0 := by
  rw [LocalIntensity_d_eq] at hH hW hb
  have hw : 1 ≤ window := by omega
  obtain ⟨_, out, _, hout, _, _, _, hso, hcells⟩ := Thresholding_total load img hwf hload
    window hw k (by rw [Thresholding_d_eq]; omega) (by rw [Thresholding_d_eq]; omega)
  refine ⟨out, hout, ?_⟩
  rw [readCell_of_shape hso hi hj]
  congr 1
  refine (hcells i j hi hj).2 ?_
  rw [Thresholding_d_eq]
  unfold Interior
  omega

/-- C4 at the 9×9 image of intensity 100, `window = 7`, `k = 0.2`, cell `(2, 5)`. -/
theorem C4_witness :
    ∃ out, Thresholding (fun _ => flat9) flat9 7 (1 / 5) = some out ∧
      readCell out.image 2 5 = some 0 :=
  C4_border_zero (fun _ => flat9) flat9 wellFormed_flat9 rfl 7 (1 / 5)
    (by rw [LocalIntensity_d_eq]; decide) (by rw [LocalIntensity_d_eq]; decide) 2 5
    (by decide) (by decide) (Or.inl (by rw [LocalIntensity_d_eq]; decide))

/-- C5: for every grid, window and `k` on which `Thresholding` completes, every cell of the
returned grid is either 0 or 255. -/
theorem C5_binary_output (load : String → cImage) (img : cImage) (hwf : WellFormed img)
    (hload : load img.image_name = img) (window : Nat) (k : ℚ) (out : cImage)
    (h : Thresholding load img window k = some out) :
    ∀ row ∈ out.image, ∀ v ∈ row, v = 0 ∨ v = 255 := by
  obtain ⟨hs, hc⟩ := Thresholding_cells load img hwf hload window k out h
  intro row hrow v hv
  obtain ⟨i, j, hi, hj, hij⟩ := mem_cell hs hrow hv
  rw [← hij]
  exact hc i j hi hj

/-- C5 at the 9×9 image of intensity 100, `window = 7`, `k = 0.2`, on which `Thresholding`
completes. -/
theorem C5_witness :
    ∃ out, Thresholding (fun _ => flat9) flat9 7 (1 / 5) = some out ∧
      ∀ row ∈ out.image, ∀ v ∈ row, v = 0 ∨ v = 255 := by
  obtain ⟨_, out, _, hout, _⟩ := Thresholding_total (fun _ => flat9) flat9 wellFormed_flat9 rfl
    7 (by decide) (1 / 5) (by rw [Thresholding_d_eq]; decide) (by rw [Thresholding_d_eq]; decide)
  exact ⟨out, hout,
    C5_binary_output (fun _ => flat9) flat9 wellFormed_flat9 rfl 7 (1 / 5) out hout⟩

/-- C6 fails on the code: on the 5×5 image of intensity 96 with centre pixel 35, `window = 4`,
`k = 0.2`, the window sum at the only interior pixel `(2, 2)` is 803 and `m = 803/16`; the
rule of the specification, over signed arithmetic, holds (so the pixel would become 255), but
`Thresholding` evaluates `1 - pixel` in `unsigned int` and sets the pixel to 0. -/
theorem C6_unsigned_denominator :
    ∃ sat out, SummedAreaTable dip5 = some sat ∧ LocalIntensity sat 2 2 4 = some 803 ∧
      Thresholding (fun _ => dip5) dip5 4 (1 / 5) = some out ∧
      Interior dip5.y_pixels dip5.x_pixels (Thresholding_d 4) 2 2 ∧
      cell dip5.image 2 2 = 35 ∧ specRule 35 (localMean 803 4) (1 / 5) ∧
      ruleDen 35 (localMean 803 4) = 4294967262 + 803 / 16 ∧
      cell out.image 2 2 = 0 := by
  obtain ⟨sat, out, hsat, hout, _, _, _, _, hcells⟩ := Thresholding_total (fun _ => dip5) dip5
    wellFormed_dip5 rfl 4 (by decide) (1 / 5) (by rw [Thresholding_d_eq]; decide)
    (by rw [Thresholding_d_eq]; decide)
  have hint : Interior dip5.y_pixels dip5.x_pixels (Thresholding_d 4) 2 2 := by
    rw [Thresholding_d_eq]; decide
  have hsum : (SummedAreaTable dip5).bind (fun t => LocalIntensity t 2 2 4) = some 803 := by
    simp only [LocalIntensity, LocalIntensity_d_eq]; decide
  rw [hsat, Option.some_bind] at hsum
  obtain ⟨s, hs, hc⟩ := (hcells 2 2 (by decide) (by decide)).1 hint
  rw [hsum] at hs
  have hs2 : s = 803 := (Option.some.inj hs).symm
  subst hs2
  have hpix : cell dip5.image 2 2 = 35 := by decide
  have hden : ruleDen 35 (localMean 803 4) = 4294967262 + 803 / 16 := by
    simp only [ruleDen, localMean, usub32, U32]
    norm_num
  have hrule : rule 35 (localMean 803 4) (1 / 5) = false := by
    unfold rule
    rw [hden]
    simp only [localMean]
    norm_num
  refine ⟨sat, out, hsat, hsum, hout, hint, hpix, ?_, hden, ?_⟩
  · simp only [specRule, localMean]
    norm_num
  · rw [hc, hpix, hrule]
    rfl

/-- C7, as stated, fails: for `window = 7` the half-width of `Thresholding` is 4, while
`round(window/2 + 0.1)` with integer division, the half-width of `LocalIntensity`, is 3. -/
theorem C7_counterexample :
    Thresholding_d 7 = 4 ∧ LocalIntensity_d 7 = 3 ∧ Thresholding_d 7 ≠ LocalIntensity_d 7 := by
  rw [Thresholding_d_eq, LocalIntensity_d_eq]
  decide

/-- C7, amended: for every window, the half-width `d` that `Thresholding` uses for the border
frame and the interior loop bounds is `round(window/2. + 0.1)` with `window/2.` computed by
floating-point division, which is `⌈window/2⌉`; for every even window `2n` it is the same `d`
that `LocalIntensity` derives by integer division. -/
theorem C7_Thresholding_half_width (window n : Nat) :
    Thresholding_d window = (window + 1) / 2 ∧
      Thresholding_d (2 * n) = LocalIntensity_d (2 * n) := by
  refine ⟨Thresholding_d_eq window, ?_⟩
  rw [Thresholding_d_eq, LocalIntensity_d_eq]
  omega

/-- C8 fails on the code: for the 3×3 image and `window = 7` the half-width is 4, the first
border loop runs over rows 0..3 and stores into row 3 of a 3-row grid; the run does not
complete, whatever `k`. -/
theorem C8_degenerate_out_of_range (k : ℚ) :
    WellFormed flat3 ∧ Thresholding_d 7 = 4 ∧
      zeroRect 0 4 0 flat3.x_pixels flat3.image = none ∧
      Thresholding (fun _ => flat3) flat3 7 k = none := by
  refine ⟨wellFormed_flat3, by rw [Thresholding_d_eq], by decide, ?_⟩
  exact Thresholding_none_of_rows (fun _ => flat3) flat3 wellFormed_flat3 rfl 7 k (by decide)
    (by rw [Thresholding_d_eq]; decide)

/-- C9: for the 9×9 grid filled with intensity 100 and `window = 7`, `Thresholding` computes
half-width `d = 4`, the interior loops run over the single index 4 (so the only pixel the
adaptive rule evaluates is the centre `(4, 4)`), the run completes, and the other 80 pixels of
the output are 0. -/
theorem C9_flat9_scenario (k : ℚ) :
    Thresholding_d 7 = 4 ∧ usub32 flat9.y_pixels 4 = 5 ∧ usub32 flat9.x_pixels 4 = 5 ∧
      (∀ i, i < 9 → ∀ j, j < 9 →
        (Interior flat9.y_pixels flat9.x_pixels 4 i j ↔ (i = 4 ∧ j = 4))) ∧
      ∃ out, Thresholding (fun _ => flat9) flat9 7 k = some out ∧
        ∀ i, i < 9 → ∀ j, j < 9 → ¬ (i = 4 ∧ j = 4) → readCell out.image i j = some 0 := by
  have hd : Thresholding_d 7 = 4 := by rw [Thresholding_d_eq]
  refine ⟨hd, by decide, by decide, by decide, ?_⟩
  obtain ⟨_, out, _, hout, _, _, _, hso, hcells⟩ := Thresholding_total (fun _ => flat9) flat9
    wellFormed_flat9 rfl 7 (by decide) k (by rw [hd]; decide) (by rw [hd]; decide)
  refine ⟨out, hout, ?_⟩
  intro i hi j hj hne
  rw [readCell_of_shape hso (show i < flat9.y_pixels from hi) (show j < flat9.x_pixels from hj)]
  congr 1
  refine (hcells i j hi hj).2 ?_
  rw [hd]
  intro hint
  have h9 : flat9.y_pixels = 9 ∧ flat9.x_pixels = 9 := ⟨rfl, rfl⟩
  unfold Interior at hint
  omega

/-- C10 fails on the code: for the 9×9 grid filled with intensity 100 and `window = 7`,
`LocalIntensity(SummedAreaTable, 4, 4, 7)` is 2500, the sum of the 5×5 square around the
centre, not 4900, the sum of the 7×7 square; the local mean is `2500/49`, not 100. -/
theorem C10_local_sum_2500 :
    ∃ sat, SummedAreaTable flat9 = some sat ∧ LocalIntensity_d 7 = 3 ∧
      LocalIntensity sat 4 4 7 = some 2500 ∧ rectSum flat9.image 2 5 2 5 = 2500 ∧
      rectSum flat9.image 1 7 1 7 = 4900 ∧ localMean 2500 7 = 2500 / 49 ∧
      localMean 2500 7 ≠ 100 := by
  obtain ⟨sat, hsat, _, _⟩ := SummedAreaTable_total flat9 wellFormed_flat9
  have hsum : (SummedAreaTable flat9).bind (fun t => LocalIntensity t 4 4 7) = some 2500 := by
    simp only [LocalIntensity, LocalIntensity_d_eq]; decide
  rw [hsat, Option.some_bind] at hsum
  refine ⟨sat, hsat, by rw [LocalIntensity_d_eq], hsum, by decide, by decide, ?_, ?_⟩
  · simp only [localMean]; norm_num
  · simp only [localMean]; norm_num


/-! ## Bounds on brute-force sums -/

theorem sumRange_mono (f h : Nat → Nat) (lo : Nat) :
    ∀ n, (∀ k, lo ≤ k → k < lo + n → f k ≤ h k) → sumRange f lo n ≤ sumRange h lo n := by
  intro n
  induction n with
  | zero => intro _; exact le_refl _
  | succ n ih =>
    intro hfh
    simp only [sumRange]
    exact Nat.add_le_add (ih (fun k h1 h2 => hfh k h1 (by omega)))
      (hfh (lo + n) (by omega) (by omega))

theorem sumRange_const (c lo : Nat) : ∀ n, sumRange (fun _ => c) lo n = n * c := by
  intro n
  induction n with
  | zero => simp [sumRange]
  | succ n ih => simp only [sumRange]; rw [ih, Nat.succ_mul]

theorem le_sumRange (f : Nat → Nat) (lo : Nat) :
    ∀ n k, lo ≤ k → k < lo + n → f k ≤ sumRange f lo n := by
  intro n
  induction n with
  | zero => intro k h1 h2; omega
  | succ n ih =>
    intro k h1 h2
    simp only [sumRange]
    by_cases e : k = lo + n
    · rw [e]; exact Nat.le_add_left _ _
    · exact le_trans (ih k h1 (by omega)) (Nat.le_add_right _ _)

theorem rectSum_le_bound (g : Grid) (M : Nat) (hM : ∀ i j, cell g i j ≤ M)
    (r0 nr c0 nc : Nat) : rectSum g r0 nr c0 nc ≤ nr * (nc * M) := by
  unfold rectSum
  have h1 : ∀ r, sumRange (fun c => cell g r c) c0 nc ≤ nc * M := by
    intro r
    rw [← sumRange_const M c0 nc]
    exact sumRange_mono _ _ c0 nc (fun k _ _ => hM r k)
  rw [← sumRange_const (nc * M) r0 nr]
  exact sumRange_mono _ _ r0 nr (fun k _ _ => h1 k)

theorem cell_le_rectSum (g : Grid) (r0 nr c0 nc i j : Nat) (hi : r0 ≤ i) (hi2 : i < r0 + nr)
    (hj : c0 ≤ j) (hj2 : j < c0 + nc) : cell g i j ≤ rectSum g r0 nr c0 nc := by
  unfold rectSum
  exact le_trans (le_sumRange (fun c => cell g i c) c0 nc j hj hj2)
    (le_sumRange (fun r => sumRange (fun c => cell g r c) c0 nc) r0 nr i hi hi2)

theorem rectSum_le_total (g : Grid) (H W r0 nr c0 nc : Nat) (hr : r0 + nr ≤ H)
    (hc : c0 + nc ≤ W) : rectSum g r0 nr c0 nc ≤ rectSum g 0 H 0 W := by
  obtain ⟨e, rfl⟩ : ∃ e, H = r0 + (nr + e) := ⟨H - (r0 + nr), by omega⟩
  obtain ⟨f, rfl⟩ : ∃ f, W = c0 + (nc + f) := ⟨W - (c0 + nc), by omega⟩
  rw [rectSum_rows g 0 r0 (nr + e), rectSum_rows g (0 + r0) nr e,
    rectSum_cols g (0 + r0) nr 0 c0 (nc + f), rectSum_cols g (0 + r0) nr (0 + c0) nc f]
  simp only [Nat.zero_add]
  omega

theorem cell_eq_zero_or_mem (g : Grid) (i j : Nat) :
    cell g i j = 0 ∨ ∃ row ∈ g, cell g i j ∈ row := by
  unfold cell
  by_cases hi : i < g.length
  · rw [List.getD_eq_getElem _ _ hi]
    by_cases hj : j < (g[i]).length
    · right
      refine ⟨g[i], List.getElem_mem _, ?_⟩
      rw [List.getD_eq_getElem _ _ hj]
      exact List.getElem_mem _
    · left
      rw [List.getD_eq_getElem?_getD, List.getElem?_eq_none (by omega)]
      rfl
  · left
    have e : g.getD i [] = [] := by
      rw [List.getD_eq_getElem?_getD, List.getElem?_eq_none (by omega)]
      rfl
    rw [e]
    rfl

theorem cell_le_of_forall (g : Grid) (M : Nat) (h : ∀ row ∈ g, ∀ v ∈ row, v ≤ M) (i j : Nat) :
    cell g i j ≤ M := by
  rcases cell_eq_zero_or_mem g i j with h0 | ⟨row, hrow, hv⟩
  · rw [h0]; exact Nat.zero_le _
  · exact h row hrow _ hv

theorem shape_map_length {H W : Nat} {g : Grid} (hs : Shape H W g) :
    g.map List.length = List.replicate H W := by
  rw [List.eq_replicate_iff]
  refine ⟨by rw [List.length_map]; exact hs.1, ?_⟩
  intro b hb
  obtain ⟨row, hrow, rfl⟩ := List.mem_map.mp hb
  exact hs.2 row hrow


/-! ## What an in-range `LocalIntensity` query returns -/

/-- A query is in range when no subscript of `LocalIntensity` leaves the table: for
`d = window/2`, the rows `x - d` and `x + d - 1` and the columns `y - d` and `y + d - 1` are
computed without wrap-around and lie in the table.  It returns the covered sum modulo
`2^32`. -/
theorem LocalIntensity_windowSum (g sat : Grid) (H W : Nat) (hsat : Shape H W sat)
    (hcells : ∀ i j, i < H → j < W → cell sat i j = psum g i j % U32)
    (hH : H < U32) (hW : W < U32) (x y window : Nat)
    (hx : window / 2 ≤ x) (hy : window / 2 ≤ y) (hx1 : 1 ≤ x + window / 2)
    (hy1 : 1 ≤ y + window / 2) (hx2 : x + window / 2 - 1 < H) (hy2 : y + window / 2 - 1 < W)
    (hx3 : x - window / 2 < H) (hy3 : y - window / 2 < W) :
    LocalIntensity sat x y window = some (windowSum g x y window % U32) := by
  unfold windowSum
  by_cases hd : window / 2 = 0
  · rw [if_pos hd]
    simp only [hd, Nat.add_zero, Nat.sub_zero] at hx1 hy1 hx2 hy2 hx3 hy3
    exact LocalIntensity_total_zero g sat H W hsat hcells hH hW x y window hd (by omega)
      (by omega) (by omega) (by omega)
  · rw [if_neg hd]
    exact LocalIntensity_total g sat H W hsat hcells hH hW x y window (by omega) hx hx2 hy hy2

theorem cell_le_windowSum (g : Grid) (x y window : Nat) (hx : window / 2 ≤ x)
    (hy : window / 2 ≤ y) : cell g x y ≤ windowSum g x y window := by
  unfold windowSum
  by_cases hd : window / 2 = 0
  · rw [if_pos hd]
  · rw [if_neg hd]
    exact cell_le_rectSum g _ _ _ _ x y (by omega) (by omega) (by omega) (by omega)

theorem windowSum_le_bound (g : Grid) (M : Nat) (hM : ∀ i j, cell g i j ≤ M)
    (x y window : Nat) (hw : 1 ≤ window) : windowSum g x y window ≤ M * window ^ 2 := by
  unfold windowSum
  by_cases hd : window / 2 = 0
  · rw [if_pos hd]
    calc cell g x y ≤ M := hM x y
      _ = M * 1 := (Nat.mul_one M).symm
      _ ≤ M * window ^ 2 := Nat.mul_le_mul_left M (Nat.one_le_pow _ _ hw)
  · rw [if_neg hd]
    have h := rectSum_le_bound g M hM (x - window / 2 + 1) (2 * (window / 2) - 1)
      (y - window / 2 + 1) (2 * (window / 2) - 1)
    have hle : 2 * (window / 2) - 1 ≤ window := by omega
    calc rectSum g (x - window / 2 + 1) (2 * (window / 2) - 1) (y - window / 2 + 1)
          (2 * (window / 2) - 1)
        ≤ (2 * (window / 2) - 1) * ((2 * (window / 2) - 1) * M) := h
      _ ≤ window * (window * M) :=
          Nat.mul_le_mul hle (Nat.mul_le_mul hle (le_refl M))
      _ = M * window ^ 2 := by ring

theorem windowSum_le_total (g : Grid) (H W x y window : Nat) (hx : window / 2 ≤ x)
    (hy : window / 2 ≤ y) (hx1 : 1 ≤ x + window / 2) (hy1 : 1 ≤ y + window / 2)
    (hx2 : x + window / 2 - 1 < H) (hy2 : y + window / 2 - 1 < W)
    (hx3 : x - window / 2 < H) (hy3 : y - window / 2 < W) :
    windowSum g x y window ≤ rectSum g 0 H 0 W := by
  unfold windowSum
  by_cases hd : window / 2 = 0
  · rw [if_pos hd]
    simp only [hd, Nat.add_zero, Nat.sub_zero] at hx1 hy1 hx2 hy2 hx3 hy3
    rw [← rectSum_one_one g x y]
    exact rectSum_le_total g H W x 1 y 1 (by omega) (by omega)
  · rw [if_neg hd]
    exact rectSum_le_total g H W _ _ _ _ (by omega) (by omega)

/-- The denominator of the rule is positive as soon as the window sum is at least the
pixel. -/
theorem ruleDen_pos (p s window : Nat) (hp : p < U32) (hw : 1 ≤ window) (hs : p ≤ s) :
    0 < ruleDen p (localMean s window) := by
  unfold ruleDen localMean
  have hwq : (0 : ℚ) < (window : ℚ) := by exact_mod_cast hw
  have hden : (0 : ℚ) < 1 * (window : ℚ) * (window : ℚ) := by positivity
  have hm : (0 : ℚ) ≤ (s : ℚ) / (1 * (window : ℚ) * (window : ℚ)) :=
    div_nonneg (Nat.cast_nonneg s) (le_of_lt hden)
  by_cases h1 : p = 1
  · subst h1
    have hsq : (0 : ℚ) < (s : ℚ) := by exact_mod_cast hs
    have : (0 : ℚ) < (s : ℚ) / (1 * (window : ℚ) * (window : ℚ)) := div_pos hsq hden
    have hu : (0 : ℚ) ≤ ((usub32 1 1 : Nat) : ℚ) := Nat.cast_nonneg _
    linarith
  · have hu : 1 ≤ usub32 1 p := by
      unfold usub32
      by_cases h0 : p = 0
      · subst h0
        have : (1 + U32 - 0) % U32 = 1 := by decide
        rw [this]
      · rw [Nat.mod_eq_of_lt (by omega)]
        omega
    have huq : (1 : ℚ) ≤ ((usub32 1 p : Nat) : ℚ) := by exact_mod_cast hu
    linarith


theorem rule_zero_zero (window : Nat) (k : ℚ) : rule 0 (localMean 0 window) k = true := by
  have hu : usub32 1 0 = 1 := by decide
  have hm : localMean 0 window = 0 := by simp [localMean]
  unfold rule ruleDen
  rw [hm, hu]
  simp

/-! ## The text written by `SaveImage` and `SaveMatrix` -/

theorem foldl_append_acc (l : List String) :
    ∀ acc : String, List.foldl (fun r s => r ++ s) acc l =
      acc ++ List.foldl (fun r s => r ++ s) "" l := by
  induction l with
  | nil => intro acc; simp [String.append_empty]
  | cons x xs ih =>
    intro acc
    simp only [List.foldl_cons]
    rw [ih (acc ++ x), ih ("" ++ x), String.empty_append, String.append_assoc]

theorem join_cons (x : String) (xs : List String) :
    String.join (x :: xs) = x ++ String.join xs := by
  unfold String.join
  simp only [List.foldl_cons]
  rw [foldl_append_acc xs ("" ++ x), String.empty_append]

theorem join_snoc (l : List String) (x : String) :
    String.join (l ++ [x]) = String.join l ++ x := by
  unfold String.join
  rw [List.foldl_append]
  rfl

theorem intercalate_go_snoc (sep : String) (l : List String) :
    ∀ acc x : String, String.intercalate.go acc sep (l ++ [x]) =
      acc ++ sep ++ String.join (l.map (fun r => r ++ sep)) ++ x := by
  induction l with
  | nil =>
    intro acc x
    simp [String.intercalate.go, String.join, String.append_empty]
  | cons y ys ih =>
    intro acc x
    show String.intercalate.go (acc ++ sep ++ y) sep (ys ++ [x]) = _
    rw [ih (acc ++ sep ++ y) x, List.map_cons, join_cons]
    simp only [String.append_assoc]

theorem intercalate_snoc (sep : String) (l : List String) (x : String) :
    String.intercalate sep (l ++ [x]) = String.join (l.map (fun r => r ++ sep)) ++ x := by
  cases l with
  | nil => simp [String.intercalate, String.intercalate.go, String.join, String.empty_append]
  | cons y ys =>
    show String.intercalate.go y sep (ys ++ [x]) = _
    rw [intercalate_go_snoc sep ys y x, List.map_cons, join_cons]


theorem take_succ_getD {α : Type} (l : List α) (n : Nat) (a : α) (h : n < l.length) :
    l.take (n + 1) = l.take n ++ [l.getD n a] := by
  rw [List.take_succ, List.getD_eq_getElem _ _ h, List.getElem?_eq_getElem h]
  rfl

theorem textLoop_row (g : Grid) (H W : Nat) (hs : Shape H W g) (i : Nat) (hi : i < H)
    (body : Nat → String → Option String)
    (hbody : ∀ j o, j < W → body j o = some (o ++ toString (cell g i j) ++ " "))
    (out : String) : forLoop body 0 W out = some (out ++ rowText (g.getD i [])) := by
  have hrow := hs.row_length hi
  obtain ⟨t, ht, hP⟩ := forLoop_inv
    (fun j o => o = out ++ String.join (((g.getD i []).take j).map
      (fun v => toString v ++ " ")))
    body 0 W out (Nat.zero_le _)
    (by simp [String.join, String.append_empty])
    (fun j o _ hj hP => by
      refine ⟨_, hbody j o hj, ?_⟩
      have hP2 : o = out ++ String.join (((g.getD i []).take j).map
        (fun v => toString v ++ " ")) := hP
      show o ++ toString (cell g i j) ++ " " = out ++ String.join
        (((g.getD i []).take (j + 1)).map (fun v => toString v ++ " "))
      rw [hP2, take_succ_getD (g.getD i []) j 0 (by omega), List.map_append,
        List.map_singleton, join_snoc]
      simp only [String.append_assoc]
      rfl)
  have hP2 : t = out ++ String.join (((g.getD i []).take W).map
    (fun v => toString v ++ " ")) := hP
  rw [ht, hP2, List.take_of_length_le (by omega)]
  rfl

theorem textLoop_grid (g : Grid) (H W : Nat) (hs : Shape H W g)
    (body : Nat → String → Option String)
    (hbody : ∀ i o, i < H → body i o =
      some (o ++ rowText (g.getD i []) ++ (if i + 1 < H then "\n" else "")))
    : forLoop body 0 H "" = some (gridText g) := by
  obtain ⟨t, ht, hP⟩ := forLoop_inv
    (fun i o => (i < H ∧ o = String.join ((g.take i).map (fun r => rowText r ++ "\n"))) ∨
      (i = H ∧ o = gridText g))
    body 0 H "" (Nat.zero_le _)
    (by
      by_cases h0 : 0 < H
      · left; exact ⟨h0, by simp [String.join]⟩
      · right
        have hH : H = 0 := by omega
        have hg : g = [] := List.eq_nil_of_length_eq_zero (by rw [hs.1]; exact hH)
        refine ⟨hH.symm, ?_⟩
        rw [hg]
        rfl)
    (fun i o _ hi hP => by
      rcases hP with ⟨_, hP⟩ | ⟨hP, _⟩
      · refine ⟨_, hbody i o hi, ?_⟩
        have hlen : i < g.length := by rw [hs.1]; exact hi
        by_cases hlast : i + 1 < H
        · left
          refine ⟨hlast, ?_⟩
          rw [if_pos hlast, hP, take_succ_getD g i [] hlen, List.map_append,
            List.map_singleton, join_snoc]
          simp only [String.append_assoc]
        · right
          refine ⟨by omega, ?_⟩
          rw [if_neg hlast, String.append_empty, hP]
          unfold gridText
          have hg : g = g.take i ++ [g.getD i []] := by
            have hH := hs.1
            rw [← take_succ_getD g i [] hlen, List.take_of_length_le (by omega)]
          conv_rhs => rw [hg]
          rw [List.map_append, List.map_singleton, intercalate_snoc, List.map_map]
          rfl
      · omega)
  rw [ht]
  rcases hP with ⟨hlt, _⟩ | ⟨_, hP⟩
  · omega
  · rw [hP]

/-- On a well-formed image `SaveImage` writes `gridText`. -/
theorem SaveImage_total (img : cImage) (hwf : WellFormed img) :
    SaveImage img = some (gridText img.image) := by
  unfold SaveImage
  refine textLoop_grid img.image img.y_pixels img.x_pixels hwf.shape _ ?_
  intro i o hi
  have hrow := textLoop_row img.image img.y_pixels img.x_pixels hwf.shape i hi
    (fun j out => (readCell img.image i j).bind fun v => some (out ++ toString v ++ " "))
    (fun j o hj => by
      show (readCell img.image i j).bind _ = _
      rw [readCell_of_shape hwf.shape hi hj]
      rfl) o
  have hsub : usub32 img.y_pixels 1 = img.y_pixels - 1 :=
    usub32_of_le _ _ (by omega) hwf.ylt
  simp only [Option.bind_eq_bind, hrow, hsub, Option.some_bind]
  by_cases hlast : i + 1 < img.y_pixels
  · rw [if_pos (show i < img.y_pixels - 1 by omega), if_pos hlast]
  · rw [if_neg (show ¬ i < img.y_pixels - 1 by omega), if_neg hlast, String.append_empty]

/-- On a rectangular grid with fewer than `2^32` rows and columns `SaveMatrix` writes
`gridText`. -/
theorem SaveMatrix_total (g : Grid) (H W : Nat) (hs : Shape H W g) (hH : H < U32) :
    SaveMatrix g = some (gridText g) := by
  unfold SaveMatrix
  rw [hs.1]
  refine textLoop_grid g H W hs _ ?_
  intro i o hi
  have h0 : g[0]? = some (g.getD 0 []) := by
    rw [List.getD_eq_getElem?_getD, List.getElem?_eq_getElem (by rw [hs.1]; omega)]
    rfl
  have hW : (g.getD 0 []).length = W := hs.row_length (by omega)
  have hrow := textLoop_row g H W hs i hi
    (fun j out => (readCell g i j).bind fun v => some (out ++ toString v ++ " "))
    (fun j o hj => by
      show (readCell g i j).bind _ = _
      rw [readCell_of_shape hs hi hj]
      rfl) o
  have hsub : usub64 H 1 = H - 1 := by
    unfold usub64
    have hlt : H < U64 := lt_of_lt_of_le hH (Nat.le_of_dvd (by unfold U64; norm_num) U32_dvd_U64)
    have : H + U64 - 1 = (H - 1) + U64 := by omega
    rw [this, Nat.add_mod_right, Nat.mod_eq_of_lt (by omega)]
  simp only [Option.bind_eq_bind, h0, Option.some_bind, hW, hrow, hsub]
  by_cases hlast : i + 1 < H
  · rw [if_pos (show i < H - 1 by omega), if_pos hlast]
  · rw [if_neg (show ¬ i < H - 1 by omega), if_neg hlast, String.append_empty]


/-! ## The receiver during a call of `Thresholding` -/

theorem iterate_lift {σ τ : Type} (f : τ → σ) (bodyM : Nat → σ → Option σ)
    (body : Nat → τ → Option τ) (h : ∀ i t, bodyM i (f t) = (body i t).map f) :
    ∀ (n lo : Nat) (t : τ), iterate bodyM lo n (f t) = (iterate body lo n t).map f := by
  intro n
  induction n with
  | zero => intro lo t; rfl
  | succ n ih =>
    intro lo t
    simp only [iterate]
    rw [h lo t]
    cases hb : body lo t with
    | none => rfl
    | some u =>
      simp only [Option.map_some', Option.some_bind]
      exact ih (lo + 1) u

theorem storeCopy_lift (s0 : ThresholdingMem) (i j v : Nat) (g : Grid) :
    storeCopy i j v (withCopyImage s0 g) = (writeCell g i j v).map (withCopyImage s0) := by
  show (writeCell g i j v).map _ = (writeCell g i j v).map _
  cases writeCell g i j v <;> rfl

theorem zeroRectMem_lift (s0 : ThresholdingMem) (r0 r1 c0 c1 : Nat) (g : Grid) :
    zeroRectMem r0 r1 c0 c1 (withCopyImage s0 g) =
      (zeroRect r0 r1 c0 c1 g).map (withCopyImage s0) := by
  unfold zeroRectMem zeroRect forLoop
  refine iterate_lift (withCopyImage s0) _ _ ?_ (r1 - r0) r0 g
  intro i t
  exact iterate_lift (withCopyImage s0) _ _ (fun j u => storeCopy_lift s0 i j 0 u) (c1 - c0) c0 t

theorem interiorStepMem_lift (s0 : ThresholdingMem) (tabsum : Grid) (window : Nat) (k : ℚ)
    (i j : Nat) (g : Grid) :
    interiorStepMem tabsum window k i j (withCopyImage s0 g) =
      (interiorStep tabsum window k i j g).map (withCopyImage s0) := by
  unfold interiorStepMem interiorStep
  cases LocalIntensity tabsum i j window with
  | none => rfl
  | some sum =>
    show (readCell g i j >>= _) = Option.map _ (readCell g i j >>= _)
    cases readCell g i j with
    | none => rfl
    | some p =>
      simp only [Option.bind_eq_bind, Option.some_bind]
      by_cases hr : rule p (localMean sum window) k = true
      · rw [if_pos hr, if_pos hr]; exact storeCopy_lift s0 i j 255 g
      · rw [if_neg hr, if_neg hr]; exact storeCopy_lift s0 i j 0 g

theorem withCopyImage_self (s : ThresholdingMem) (g : Grid) :
    (withCopyImage s g).self = s.self := rfl

theorem interiorLoopMem_lift (s0 : ThresholdingMem) (tabsum : Grid) (window : Nat) (k : ℚ)
    (r0 r1 c0 c1 : Nat) (g : Grid) :
    forLoop (fun i s => forLoop (fun j s => interiorStepMem tabsum window k i j s) c0
        (usub32 s.self.x_pixels c1) s) r0 r1 (withCopyImage s0 g) =
      (forLoop (fun i t => forLoop (fun j t => interiorStep tabsum window k i j t) c0
        (usub32 s0.self.x_pixels c1) t) r0 r1 g).map (withCopyImage s0) := by
  unfold forLoop
  refine iterate_lift (withCopyImage s0) _ _ ?_ (r1 - r0) r0 g
  intro i t
  exact iterate_lift (withCopyImage s0) _ _
    (fun j u => interiorStepMem_lift s0 tabsum window k i j u) _ c0 t

/-- The call with the receiver passed through returns the receiver as it was, together with
the image that `Thresholding` returns. -/
theorem Thresholding_call_eq (load : String → cImage) (self : cImage) (window : Nat) (k : ℚ) :
    Thresholding_call load self window k =
      (Thresholding load self window k).map (fun out => (self, out)) := by
  unfold Thresholding_call Thresholding
  simp only [Option.bind_eq_bind]
  cases SummedAreaTable (load self.image_name) with
  | none => rfl
  | some tabsum =>
    simp only [Option.some_bind]
    have e0 : (⟨self, load self.image_name⟩ : ThresholdingMem) =
        withCopyImage ⟨self, load self.image_name⟩ (load self.image_name).image := rfl
    rw [e0, zeroRectMem_lift]
    cases zeroRect 0 (Thresholding_d window) 0 self.x_pixels (load self.image_name).image with
    | none => rfl
    | some g1 =>
      simp only [Option.map_some', Option.some_bind, withCopyImage_self]
      rw [zeroRectMem_lift]
      cases zeroRect (usub32 self.y_pixels (Thresholding_d window)) self.y_pixels 0
        self.x_pixels g1 with
      | none => rfl
      | some g2 =>
        simp only [Option.map_some', Option.some_bind, withCopyImage_self]
        rw [zeroRectMem_lift]
        cases zeroRect (Thresholding_d window) (usub32 self.y_pixels (Thresholding_d window)) 0
          (Thresholding_d window) g2 with
        | none => rfl
        | some g3 =>
          simp only [Option.map_some', Option.some_bind, withCopyImage_self]
          rw [zeroRectMem_lift]
          cases zeroRect (Thresholding_d window)
            (usub32 self.y_pixels (Thresholding_d window))
            (usub32 self.x_pixels (Thresholding_d window)) self.x_pixels g3 with
          | none => rfl
          | some g4 =>
            simp only [Option.map_some', Option.some_bind, withCopyImage_self]
            rw [interiorLoopMem_lift]
            cases forLoop (fun i t => forLoop (fun j t => interiorStep tabsum window k i j t)
              (Thresholding_d window) (usub32 self.x_pixels (Thresholding_d window)) t)
              (Thresholding_d window) (usub32 self.y_pixels (Thresholding_d window)) g4 with
            | none => rfl
            | some g5 => rfl

/-! ## Further concrete facts -/

theorem wellFormed_wrap3 : WellFormed wrap3 := ⟨by decide, by decide, by decide, by decide, by decide⟩

theorem wellFormed_zeros5 : WellFormed zeros5 := ⟨by decide, by decide, by decide, by decide, by decide⟩

theorem wellFormed_digits2 : WellFormed digits2 :=
  ⟨by decide, by decide, by decide, by decide, by decide⟩

/-! ## The claims, continued -/

/-- C11: for every grid, window and `k` on which `Thresholding` completes, the returned image
has the same number of rows and the same number of columns in every row as the input image,
and the same `x_pixels` and `y_pixels`. -/
theorem C11_dimensions_preserved (load : String → cImage) (img : cImage) (hwf : WellFormed img)
    (hload : load img.image_name = img) (window : Nat) (k : ℚ) (out : cImage)
    (h : Thresholding load img window k = some out) :
    out.image.length = img.image.length ∧
      out.image.map List.length = img.image.map List.length ∧
      (∀ row ∈ out.image, row.length = img.x_pixels) ∧
      out.x_pixels = img.x_pixels ∧ out.y_pixels = img.y_pixels := by
  obtain ⟨hs, _⟩ := Thresholding_cells load img hwf hload window k out h
  obtain ⟨_, _, _, _, _, g5, _, _, _, _, _, _, hout⟩ := Thresholding_some load img window k out h
  rw [hload] at hout
  refine ⟨by rw [hs.1, hwf.rows], ?_, hs.2, by rw [hout], by rw [hout]⟩
  rw [shape_map_length hs, shape_map_length hwf.shape]

/-- C11 at the 9×9 image of intensity 100, `window = 7`, `k = 0.2`. -/
theorem C11_witness :
    ∃ out, Thresholding (fun _ => flat9) flat9 7 (1 / 5) = some out ∧
      out.image.length = flat9.image.length ∧
      out.image.map List.length = flat9.image.map List.length ∧
      (∀ row ∈ out.image, row.length = flat9.x_pixels) ∧
      out.x_pixels = flat9.x_pixels ∧ out.y_pixels = flat9.y_pixels := by
  obtain ⟨_, out, _, hout, _⟩ := Thresholding_total (fun _ => flat9) flat9 wellFormed_flat9 rfl
    7 (by decide) (1 / 5) (by rw [Thresholding_d_eq]; decide) (by rw [Thresholding_d_eq]; decide)
  exact ⟨out, hout,
    C11_dimensions_preserved (fun _ => flat9) flat9 wellFormed_flat9 rfl 7 (1 / 5) out hout⟩

/-- C12, as stated, fails: for the 2×2 image `[[1, 2], [3, 4]]` both `SaveImage` and
`SaveMatrix` write `1 2 ` and `3 4 `, each row ending in a space, while the rows with
intensities separated by single spaces are `1 2` and `3 4`. -/
theorem C12_counterexample :
    WellFormed digits2 ∧ SaveImage digits2 = some "1 2 \n3 4 " ∧
      SaveMatrix digits2.image = some "1 2 \n3 4 " ∧
      specGridText digits2.image = "1 2\n3 4" ∧
      SaveImage digits2 ≠ some (specGridText digits2.image) ∧
      SaveMatrix digits2.image ≠ some (specGridText digits2.image) :=
  ⟨wellFormed_digits2, by decide, by decide, by decide, by decide, by decide⟩

/-- C12, amended: for every grid the text written by `SaveImage` (and by `SaveMatrix`) is the
rows in order, each intensity in decimal followed by a single space (so every row, the last
one too, ends in a space), consecutive rows separated by one newline, and no newline after the
last row. -/
theorem C12_saved_text (img : cImage) (hwf : WellFormed img) :
    SaveImage img = some (gridText img.image) ∧
      SaveMatrix img.image = some (gridText img.image) ∧
      gridText img.image = String.intercalate "\n"
        (img.image.map (fun row => String.join (row.map (fun v => toString v ++ " ")))) :=
  ⟨SaveImage_total img hwf,
    SaveMatrix_total img.image img.y_pixels img.x_pixels hwf.shape hwf.ylt, rfl⟩

/-- C12, amended, at the 2×2 image `[[1, 2], [3, 4]]`. -/
theorem C12_witness :
    SaveImage digits2 = some (gridText digits2.image) ∧
      SaveMatrix digits2.image = some (gridText digits2.image) ∧
      gridText digits2.image = String.intercalate "\n"
        (digits2.image.map (fun row => String.join (row.map (fun v => toString v ++ " ")))) :=
  C12_saved_text digits2 wellFormed_digits2

/-- C13: `Thresholding` never mutates its input: for every image, window and `k`, after a
completed call the receiver's image matrix, `x_pixels`, `y_pixels` and `image_name` are equal
to their values before the call (and the image returned is the one `Thresholding` computes). -/
theorem C13_receiver_unchanged (load : String → cImage) (self : cImage) (window : Nat) (k : ℚ)
    (after out : cImage) (h : Thresholding_call load self window k = some (after, out)) :
    after.image = self.image ∧ after.x_pixels = self.x_pixels ∧
      after.y_pixels = self.y_pixels ∧ after.image_name = self.image_name ∧
      Thresholding load self window k = some out := by
  rw [Thresholding_call_eq] at h
  cases hT : Thresholding load self window k with
  | none => rw [hT] at h; cases h
  | some o =>
    rw [hT] at h
    simp only [Option.map_some', Option.some.injEq, Prod.mk.injEq] at h
    obtain ⟨h1, h2⟩ := h
    subst h1
    subst h2
    exact ⟨rfl, rfl, rfl, rfl, rfl⟩

/-- C13 at the 9×9 image of intensity 100, `window = 7`, `k = 0.2`, where the call
completes. -/
theorem C13_witness :
    ∃ after out, Thresholding_call (fun _ => flat9) flat9 7 (1 / 5) = some (after, out) ∧
      after.image = flat9.image ∧ after.x_pixels = flat9.x_pixels ∧
      after.y_pixels = flat9.y_pixels ∧ after.image_name = flat9.image_name ∧
      Thresholding (fun _ => flat9) flat9 7 (1 / 5) = some out := by
  obtain ⟨_, out, _, hout, _⟩ := Thresholding_total (fun _ => flat9) flat9 wellFormed_flat9 rfl
    7 (by decide) (1 / 5) (by rw [Thresholding_d_eq]; decide) (by rw [Thresholding_d_eq]; decide)
  have hcall : Thresholding_call (fun _ => flat9) flat9 7 (1 / 5) = some (flat9, out) := by
    rw [Thresholding_call_eq, hout]
    rfl
  exact ⟨flat9, out, hcall,
    C13_receiver_unchanged (fun _ => flat9) flat9 7 (1 / 5) flat9 out hcall⟩

/-- C14: for every `window ≥ 1` and every rectangular grid with `H ≥ 2d` and `W ≥ 2d`, `d`
the half-width `Thresholding` computes, every index `Thresholding` uses is in range: the run
completes (no access leaves a vector), the row and column ranges of the four border loops lie
inside the grid, and each `LocalIntensity` call of the interior loop reads four table cells
whose row and column subscripts, computed in unsigned arithmetic from the half-width of
`LocalIntensity`, lie in `[0, H) × [0, W)`. -/
theorem C14_indices_in_range (load : String → cImage) (img : cImage) (hwf : WellFormed img)
    (hload : load img.image_name = img) (window : Nat) (k : ℚ) (hw : 1 ≤ window)
    (hH : 2 * Thresholding_d window ≤ img.y_pixels)
    (hW : 2 * Thresholding_d window ≤ img.x_pixels) :
    (∃ out, Thresholding load img window k = some out) ∧
      (∀ i j,
        (i < Thresholding_d window ∧ j < img.x_pixels) ∨
        (usub32 img.y_pixels (Thresholding_d window) ≤ i ∧ i < img.y_pixels ∧
          j < img.x_pixels) ∨
        (Thresholding_d window ≤ i ∧ i < usub32 img.y_pixels (Thresholding_d window) ∧
          j < Thresholding_d window) ∨
        (Thresholding_d window ≤ i ∧ i < usub32 img.y_pixels (Thresholding_d window) ∧
          usub32 img.x_pixels (Thresholding_d window) ≤ j ∧ j < img.x_pixels) →
        i < img.y_pixels ∧ j < img.x_pixels) ∧
      ∀ i j, Thresholding_d window ≤ i → i < usub32 img.y_pixels (Thresholding_d window) →
        Thresholding_d window ≤ j → j < usub32 img.x_pixels (Thresholding_d window) →
        usub32 (uadd32 i (LocalIntensity_d window)) 1 < img.y_pixels ∧
        usub32 i (LocalIntensity_d window) < img.y_pixels ∧
        usub32 (uadd32 j (LocalIntensity_d window)) 1 < img.x_pixels ∧
        usub32 j (LocalIntensity_d window) < img.x_pixels := by
  have hHlt := hwf.ylt
  have hWlt := hwf.xlt
  obtain ⟨_, out, _, hout, _⟩ := Thresholding_total load img hwf hload window hw k
    (by omega) (by omega)
  rw [Thresholding_d_eq] at hH hW ⊢
  rw [LocalIntensity_d_eq]
  have eH : usub32 img.y_pixels ((window + 1) / 2) = img.y_pixels - (window + 1) / 2 :=
    usub32_of_le _ _ (by omega) hHlt
  have eW : usub32 img.x_pixels ((window + 1) / 2) = img.x_pixels - (window + 1) / 2 :=
    usub32_of_le _ _ (by omega) hWlt
  rw [eH, eW]
  refine ⟨⟨out, hout⟩, ?_, ?_⟩
  · intro i j hcase
    omega
  · intro i j hi1 hi2 hj1 hj2
    rw [uadd32_of_lt i _ (by omega), uadd32_of_lt j _ (by omega),
      usub32_of_le (i + window / 2) 1 (by omega) (by omega),
      usub32_of_le (j + window / 2) 1 (by omega) (by omega),
      usub32_of_le i (window / 2) (by omega) (by omega),
      usub32_of_le j (window / 2) (by omega) (by omega)]
    omega

/-- C14 at the 9×9 image of intensity 100, `window = 7`, `k = 0.2`. -/
theorem C14_witness :
    (∃ out, Thresholding (fun _ => flat9) flat9 7 (1 / 5) = some out) ∧
      (∀ i j,
        (i < Thresholding_d 7 ∧ j < flat9.x_pixels) ∨
        (usub32 flat9.y_pixels (Thresholding_d 7) ≤ i ∧ i < flat9.y_pixels ∧
          j < flat9.x_pixels) ∨
        (Thresholding_d 7 ≤ i ∧ i < usub32 flat9.y_pixels (Thresholding_d 7) ∧
          j < Thresholding_d 7) ∨
        (Thresholding_d 7 ≤ i ∧ i < usub32 flat9.y_pixels (Thresholding_d 7) ∧
          usub32 flat9.x_pixels (Thresholding_d 7) ≤ j ∧ j < flat9.x_pixels) →
        i < flat9.y_pixels ∧ j < flat9.x_pixels) ∧
      ∀ i j, Thresholding_d 7 ≤ i → i < usub32 flat9.y_pixels (Thresholding_d 7) →
        Thresholding_d 7 ≤ j → j < usub32 flat9.x_pixels (Thresholding_d 7) →
        usub32 (uadd32 i (LocalIntensity_d 7)) 1 < flat9.y_pixels ∧
        usub32 i (LocalIntensity_d 7) < flat9.y_pixels ∧
        usub32 (uadd32 j (LocalIntensity_d 7)) 1 < flat9.x_pixels ∧
        usub32 j (LocalIntensity_d 7) < flat9.x_pixels :=
  C14_indices_in_range (fun _ => flat9) flat9 wellFormed_flat9 rfl 7 (1 / 5) (by decide)
    (by rw [Thresholding_d_eq]; decide) (by rw [Thresholding_d_eq]; decide)


/-- C15: for every grid whose total intensity sum is below `2^32`: for every `window ≥ 2` with
`d = ⌊window/2⌋` and every `(x, y)` with `x ≥ d`, `y ≥ d`, `x+d-1 < H`, `y+d-1 < W`,
`LocalIntensity(SummedAreaTable, x, y, window)` equals the sum of the source intensities over
rows `x-d+1 .. x+d-1` and columns `y-d+1 .. y+d-1`, a `(2d-1) × (2d-1)` square centred at
`(x, y)`; for `window = 1` and `x, y ≥ 1` (inside the grid) it equals the single source
intensity at `(x, y)`. -/
theorem C15_LocalIntensity_exact (img : cImage) (hwf : WellFormed img)
    (htotal : rectSum img.image 0 img.y_pixels 0 img.x_pixels < U32) :
    ∃ sat, SummedAreaTable img = some sat ∧
      (∀ window x y, 2 ≤ window → window / 2 ≤ x → window / 2 ≤ y →
        x + window / 2 - 1 < img.y_pixels → y + window / 2 - 1 < img.x_pixels →
        LocalIntensity sat x y window =
          some (rectSum img.image (x - window / 2 + 1) (2 * (window / 2) - 1)
            (y - window / 2 + 1) (2 * (window / 2) - 1))) ∧
      (∀ x y, 1 ≤ x → 1 ≤ y → x < img.y_pixels → y < img.x_pixels →
        LocalIntensity sat x y 1 = some (cell img.image x y)) := by
  obtain ⟨sat, hsat, hss, hsc⟩ := SummedAreaTable_total img hwf
  refine ⟨sat, hsat, ?_, ?_⟩
  · intro window x y hw hx hy hx2 hy2
    rw [LocalIntensity_total img.image sat img.y_pixels img.x_pixels hss hsc hwf.ylt hwf.xlt
      x y window (by omega) hx hx2 hy hy2]
    have hle := rectSum_le_total img.image img.y_pixels img.x_pixels (x - window / 2 + 1)
      (2 * (window / 2) - 1) (y - window / 2 + 1) (2 * (window / 2) - 1) (by omega) (by omega)
    rw [Nat.mod_eq_of_lt (lt_of_le_of_lt hle htotal)]
  · intro x y hx hy hx2 hy2
    rw [LocalIntensity_total_zero img.image sat img.y_pixels img.x_pixels hss hsc hwf.ylt
      hwf.xlt x y 1 (by decide) hx hx2 hy hy2]
    have hle := rectSum_le_total img.image img.y_pixels img.x_pixels x 1 y 1 (by omega)
      (by omega)
    rw [rectSum_one_one] at hle
    rw [Nat.mod_eq_of_lt (lt_of_le_of_lt hle htotal)]

/-- C15 at the 9×9 image of intensity 100 (total 8100): `window = 7` at `(4, 4)` gives the sum
of the 5×5 square of rows and columns 2..6, and `window = 1` at `(4, 4)` the pixel itself. -/
theorem C15_witness :
    ∃ sat, SummedAreaTable flat9 = some sat ∧
      LocalIntensity sat 4 4 7 = some (rectSum flat9.image (4 - 7 / 2 + 1) (2 * (7 / 2) - 1)
        (4 - 7 / 2 + 1) (2 * (7 / 2) - 1)) ∧
      LocalIntensity sat 4 4 1 = some (cell flat9.image 4 4) := by
  obtain ⟨sat, hsat, h2, h1⟩ := C15_LocalIntensity_exact flat9 wellFormed_flat9 (by decide)
  exact ⟨sat, hsat,
    h2 7 4 4 (by decide) (by decide) (by decide) (by decide) (by decide),
    h1 4 4 (by decide) (by decide) (by decide) (by decide)⟩

/-- C16: for every rectangular grid of 32-bit unsigned intensities (no bound on their sum)
every entry of `SummedAreaTable` equals the inclusive 2D prefix sum reduced modulo `2^32`, and
for every in-range query (no subscript wraps or leaves the table) `LocalIntensity` returns the
sum of the cells it covers reduced modulo `2^32`; hence the window sum is exact whenever the
true window sum is below `2^32`, even if table entries have wrapped. -/
theorem C16_modular_sums (img : cImage) (hwf : WellFormed img) :
    ∃ sat, SummedAreaTable img = some sat ∧
      (∀ i j, i < img.y_pixels → j < img.x_pixels →
        readCell sat i j = some (psum img.image i j % U32)) ∧
      ∀ x y window, LocalIntensity_d window ≤ x → LocalIntensity_d window ≤ y →
        1 ≤ x + LocalIntensity_d window → 1 ≤ y + LocalIntensity_d window →
        x + LocalIntensity_d window - 1 < img.y_pixels →
        y + LocalIntensity_d window - 1 < img.x_pixels →
        x - LocalIntensity_d window < img.y_pixels →
        y - LocalIntensity_d window < img.x_pixels →
        LocalIntensity sat x y window = some (windowSum img.image x y window % U32) ∧
        (windowSum img.image x y window < U32 →
          LocalIntensity sat x y window = some (windowSum img.image x y window)) := by
  obtain ⟨sat, hsat, hss, hsc⟩ := SummedAreaTable_total img hwf
  refine ⟨sat, hsat, ?_, ?_⟩
  · intro i j hi hj
    rw [readCell_of_shape hss hi hj, hsc i j hi hj]
  · intro x y window hx hy hx1 hy1 hx2 hy2 hx3 hy3
    rw [LocalIntensity_d_eq] at hx hy hx1 hy1 hx2 hy2 hx3 hy3
    have h := LocalIntensity_windowSum img.image sat img.y_pixels img.x_pixels hss hsc hwf.ylt
      hwf.xlt x y window hx hy hx1 hy1 hx2 hy2 hx3 hy3
    refine ⟨h, fun hlt => ?_⟩
    rw [h, Nat.mod_eq_of_lt hlt]

/-- C16 at a 3×3 image with the intensity `2^32 - 1` in one corner: the table entry at `(1, 1)`
has wrapped (it is 2, the prefix sum is `2^32 + 2`), and the query at `(1, 1)` with
`window = 2` still returns the exact window sum 1. -/
theorem C16_witness :
    ∃ sat, SummedAreaTable wrap3 = some sat ∧ psum wrap3.image 1 1 = 4294967298 ∧
      readCell sat 1 1 = some 2 ∧ windowSum wrap3.image 1 1 2 = 1 ∧
      LocalIntensity sat 1 1 2 = some 1 := by
  obtain ⟨sat, hsat, hcells, hq⟩ := C16_modular_sums wrap3 wellFormed_wrap3
  have h11 := hcells 1 1 (by decide) (by decide)
  have e11 : psum wrap3.image 1 1 % U32 = 2 := by decide
  rw [e11] at h11
  have hw : windowSum wrap3.image 1 1 2 = 1 := by decide
  have hl := (hq 1 1 2 (by rw [LocalIntensity_d_eq]) (by rw [LocalIntensity_d_eq])
    (by omega) (by omega) (by rw [LocalIntensity_d_eq]; decide)
    (by rw [LocalIntensity_d_eq]; decide) (by rw [LocalIntensity_d_eq]; decide)
    (by rw [LocalIntensity_d_eq]; decide)).2 (by rw [hw]; decide)
  rw [hw] at hl
  exact ⟨sat, hsat, by decide, h11, hw, hl⟩

/-- C17: for every grid with intensities at most 255, every window with `1 ≤ window` and
`255 * window^2 < 2^32`, and every interior pixel `Thresholding` evaluates, the local mean `m`
is non-negative and the denominator of the decision rule as the code computes it,
`(1 - pixel) mod 2^32 + m`, is strictly positive. -/
theorem C17_denominator_positive (img : cImage) (hwf : WellFormed img)
    (h255 : ∀ row ∈ img.image, ∀ v ∈ row, v ≤ 255) (window : Nat) (hw : 1 ≤ window)
    (hbound : 255 * window ^ 2 < U32) (i j : Nat)
    (hint : Interior img.y_pixels img.x_pixels (Thresholding_d window) i j) :
    ∃ sat s, SummedAreaTable img = some sat ∧ LocalIntensity sat i j window = some s ∧
      0 ≤ localMean s window ∧
      0 < ruleDen (cell img.image i j) (localMean s window) ∧
      ruleDen (cell img.image i j) (localMean s window) =
        (((1 + U32 - cell img.image i j) % U32 : Nat) : ℚ) + localMean s window := by
  obtain ⟨sat, hsat, hss, hsc⟩ := SummedAreaTable_total img hwf
  rw [Thresholding_d_eq] at hint
  obtain ⟨h1, h2, h3, h4⟩ := hint
  have hcell := cell_le_of_forall img.image 255 h255
  have hsum := LocalIntensity_windowSum img.image sat img.y_pixels img.x_pixels hss hsc
    hwf.ylt hwf.xlt i j window (by omega) (by omega) (by omega) (by omega) (by omega)
    (by omega) (by omega) (by omega)
  have hle := windowSum_le_bound img.image 255 hcell i j window hw
  rw [Nat.mod_eq_of_lt (lt_of_le_of_lt hle hbound)] at hsum
  have hge := cell_le_windowSum img.image i j window (by omega) (by omega)
  have hp : cell img.image i j < U32 := lt_of_le_of_lt (hcell i j) (by decide)
  refine ⟨sat, _, hsat, hsum, ?_, ruleDen_pos _ _ window hp hw hge, rfl⟩
  unfold localMean
  positivity

/-- C17 at the 9×9 image of intensity 100, `window = 7`, centre pixel `(4, 4)`. -/
theorem C17_witness :
    ∃ sat s, SummedAreaTable flat9 = some sat ∧ LocalIntensity sat 4 4 7 = some s ∧
      0 ≤ localMean s 7 ∧
      0 < ruleDen (cell flat9.image 4 4) (localMean s 7) ∧
      ruleDen (cell flat9.image 4 4) (localMean s 7) =
        (((1 + U32 - cell flat9.image 4 4) % U32 : Nat) : ℚ) + localMean s 7 :=
  C17_denominator_positive flat9 wellFormed_flat9 (by decide) 7 (by decide) (by decide) 4 4
    (by rw [Thresholding_d_eq]; decide)

/-- C18: for every all-zero grid with a non-empty interior, every `window ≥ 1` and every
(finite) `k`, `Thresholding` sets every interior pixel (rows `[d, H-d)`, columns `[d, W-d)`,
`d` the half-width `Thresholding` computes) to 255 while the border frame is 0: with
`pixel = 0` and `m = 0` the denominator is 1 and the test of the rule succeeds. -/
theorem C18_all_zero_grid (load : String → cImage) (img : cImage) (hwf : WellFormed img)
    (hload : load img.image_name = img) (hzero : ∀ row ∈ img.image, ∀ v ∈ row, v = 0)
    (window : Nat) (hw : 1 ≤ window) (k : ℚ)
    (hH : 2 * Thresholding_d window < img.y_pixels)
    (hW : 2 * Thresholding_d window < img.x_pixels) :
    ruleDen 0 (localMean 0 window) = 1 ∧ rule 0 (localMean 0 window) k = true ∧
      ∃ out, Thresholding load img window k = some out ∧
        ∀ i j, i < img.y_pixels → j < img.x_pixels →
          readCell out.image i j =
            some (if Interior img.y_pixels img.x_pixels (Thresholding_d window) i j then 255
              else 0) := by
  obtain ⟨sat, out, hsat, hout, _, _, _, hso, hcells⟩ := Thresholding_total load img hwf hload
    window hw k (by omega) (by omega)
  obtain ⟨sat2, hsat2, hss, hsc⟩ := SummedAreaTable_total img hwf
  rw [hsat] at hsat2
  cases hsat2
  have hcell : ∀ i j, cell img.image i j ≤ 0 :=
    cell_le_of_forall img.image 0 (fun row hrow v hv => by rw [hzero row hrow v hv])
  have hden : ruleDen 0 (localMean 0 window) = 1 := by
    have hu : usub32 1 0 = 1 := by decide
    simp [ruleDen, localMean, hu]
  refine ⟨hden, rule_zero_zero window k, out, hout, ?_⟩
  intro i j hi hj
  rw [readCell_of_shape hso hi hj]
  by_cases hint : Interior img.y_pixels img.x_pixels (Thresholding_d window) i j
  · rw [if_pos hint]
    obtain ⟨s, hs, hc⟩ := (hcells i j hi hj).1 hint
    rw [Thresholding_d_eq] at hint
    obtain ⟨h1, h2, h3, h4⟩ := hint
    have hsum := LocalIntensity_windowSum img.image sat img.y_pixels img.x_pixels hss hsc
      hwf.ylt hwf.xlt i j window (by omega) (by omega) (by omega) (by omega) (by omega)
      (by omega) (by omega) (by omega)
    have hle := windowSum_le_bound img.image 0 hcell i j window hw
    have hz : windowSum img.image i j window = 0 := by omega
    rw [hz, Nat.zero_mod, hs] at hsum
    have hs0 : s = 0 := Option.some.inj hsum
    have hp0 : cell img.image i j = 0 := Nat.le_zero.mp (hcell i j)
    rw [hc, hs0, hp0, rule_zero_zero, if_pos rfl]
  · rw [if_neg hint, (hcells i j hi hj).2 hint]

/-- C18 at the 5×5 image of zeros, `window = 3`, `k = 0.2`: the centre becomes 255. -/
theorem C18_witness :
    ruleDen 0 (localMean 0 3) = 1 ∧ rule 0 (localMean 0 3) (1 / 5) = true ∧
      ∃ out, Thresholding (fun _ => zeros5) zeros5 3 (1 / 5) = some out ∧
        ∀ i j, i < zeros5.y_pixels → j < zeros5.x_pixels →
          readCell out.image i j =
            some (if Interior zeros5.y_pixels zeros5.x_pixels (Thresholding_d 3) i j then 255
              else 0) :=
  C18_all_zero_grid (fun _ => zeros5) zeros5 wellFormed_zeros5 rfl (by decide) 3 (by decide)
    (1 / 5) (by rw [Thresholding_d_eq]; decide) (by rw [Thresholding_d_eq]; decide)

end CImage
